import Mathlib

/-!
Tetris Stack: the circular queue of upcoming pieces (`tetris.c`).

A shallow embedding of the C program: the global variables become the fields
of `Estado`, every function becomes a state-passing function, and the text
written by `printf` is collected in the field `saida`.

* C `int` arithmetic that the program performs (`+ 1`, `- 1`) is wrapped to 32 bits
  two's complement by `wrapInt`; `%` on `int` is truncated division, `Int.tmod`.
* An access `filaPecas[i]` with `i` outside `[0, TAMANHO_FILA)` has no defined
  behaviour in C; the embedding returns `none` there.
* The value returned by each call of `rand()` is a parameter (a natural number, as
  `rand()` returns a value in `[0, RAND_MAX]`).
* What `scanf("%d", &escolha)` finds is a `Leitura`: an integer as typed, which is stored
  in the 32-bit `escolha` as `escolhaLida` gives; a line that is not a number; or the end
  of the input, where the loop discarding the line never ends.
-/

namespace Tetris

/-- Capacity of the queue, `#define TAMANHO_FILA 5`. -/
abbrev TAMANHO_FILA : Nat := 5

/-- The C struct `Peca`: a kind symbol and an identifier. -/
structure Peca where
  nome : Char
  id : Int
deriving DecidableEq, Repr

/-- Two's complement wrap-around of a mathematical integer to a 32-bit C `int`. -/
def wrapInt (x : Int) : Int := (x + 2 ^ 31) % 2 ^ 32 - 2 ^ 31

/-- The global variables of the program, plus the text printed so far. -/
structure Estado where
  filaPecas : Fin TAMANHO_FILA → Peca
  frente : Int
  traseira : Int
  contadorPecas : Int
  idProximaPeca : Int
  saida : List String

/-- The state at program start: the initialisers of the globals; the static array is
zero-initialised. -/
def estadoInicial : Estado :=
  { filaPecas := fun _ => ⟨Char.ofNat 0, 0⟩
    frente := 0
    traseira := -1
    contadorPecas := 0
    idProximaPeca := 0
    saida := [] }

/-- Reading `filaPecas[i]` with an `int` index; `none` when `i` is out of bounds. -/
def lerFila (a : Fin TAMANHO_FILA → Peca) (i : Int) : Option Peca :=
  if h : 0 ≤ i ∧ i < TAMANHO_FILA then some (a ⟨i.toNat, by omega⟩) else none

/-- Writing `filaPecas[i] = p` with an `int` index; `none` when `i` is out of bounds. -/
def escreverFila (a : Fin TAMANHO_FILA → Peca) (i : Int) (p : Peca) :
    Option (Fin TAMANHO_FILA → Peca) :=
  if h : 0 ≤ i ∧ i < TAMANHO_FILA then some (Function.update a ⟨i.toNat, by omega⟩ p) else none

/-- The local array `tipos` of `gerarPeca`. -/
def tipos : List Char := ['I', 'O', 'T', 'L', 'J', 'Z', 'S']

/-- The local `numTipos = sizeof(tipos) / sizeof(tipos[0])`. -/
def numTipos : Nat := tipos.length

/-- The function `gerarPeca`, where `r` is the value returned by `rand()`: the piece
returned and the new state. -/
def gerarPeca (r : Nat) (s : Estado) : Peca × Estado :=
  let indiceTipo : Fin numTipos := ⟨r % numTipos, Nat.mod_lt r (by decide)⟩
  let novaPeca : Peca := { nome := tipos.get indiceTipo, id := s.idProximaPeca }
  (novaPeca, { s with idProximaPeca := wrapInt (s.idProximaPeca + 1) })

/-- The function `isFilaCheia`: whether `contadorPecas == TAMANHO_FILA`. -/
def isFilaCheia (s : Estado) : Bool := s.contadorPecas == (TAMANHO_FILA : Int)

/-- The function `isFilaVazia`: whether `contadorPecas == 0`. -/
def isFilaVazia (s : Estado) : Bool := s.contadorPecas == 0

/-- The `%c %d` rendering of a piece between brackets. -/
def fmtPeca (p : Peca) : String :=
  "[" ++ String.singleton p.nome ++ " " ++ toString p.id ++ "]"

/-- The error line printed by `enfileirar` on a full queue. -/
def msgFilaCheia : String :=
  "ERRO: A fila de pecas futuras esta cheia! Nao foi possivel inserir.\n"

/-- The success line printed by `enfileirar`. -/
def msgInserida (p : Peca) : String :=
  "SUCESSO: Peca " ++ fmtPeca p ++ " inserida no final da fila (enqueue).\n"

/-- The error line printed by `desenfileirar` on an empty queue. -/
def msgFilaVazia : String :=
  "ERRO: A fila de pecas futuras esta vazia! Nao ha pecas para jogar (dequeue).\n"

/-- The success line printed by `desenfileirar`. -/
def msgRemovida (p : Peca) : String :=
  "SUCESSO: Peca " ++ fmtPeca p ++ " jogada/removida da frente da fila (dequeue).\n"

/-- The function `enfileirar`: rejects on a full queue, otherwise advances `traseira`
circularly, writes the piece there and counts it. -/
def enfileirar (novaPeca : Peca) (s : Estado) : Option Estado :=
  if isFilaCheia s then
    some { s with saida := s.saida ++ [msgFilaCheia] }
  else
    let traseira := Int.tmod (wrapInt (s.traseira + 1)) TAMANHO_FILA
    match escreverFila s.filaPecas traseira novaPeca with
    | none => none
    | some fila =>
      some { s with
        traseira := traseira
        filaPecas := fila
        contadorPecas := wrapInt (s.contadorPecas + 1)
        saida := s.saida ++ [msgInserida novaPeca] }

/-- The error piece `{'X', -1}` that `desenfileirar` returns on an empty queue. -/
def pecaErro : Peca := { nome := 'X', id := -1 }

/-- The function `desenfileirar`: the returned piece and the new state. -/
def desenfileirar (s : Estado) : Option (Peca × Estado) :=
  if isFilaVazia s then
    some (pecaErro, { s with saida := s.saida ++ [msgFilaVazia] })
  else
    match lerFila s.filaPecas s.frente with
    | none => none
    | some pecaRemovida =>
      some (pecaRemovida, { s with
        frente := Int.tmod (wrapInt (s.frente + 1)) TAMANHO_FILA
        contadorPecas := wrapInt (s.contadorPecas - 1)
        saida := s.saida ++ [msgRemovida pecaRemovida] })

/-- The loop of `inicializarFila`: `n` iterations remain, the loop variable is `i`, and
`rs i` is the value `rand()` returns in iteration `i`. -/
def inicializarLaco (rs : Nat → Nat) : Nat → Nat → Estado → Option Estado
  | 0, _, s => some s
  | n + 1, i, s =>
    let (p, s1) := gerarPeca (rs i) s
    match enfileirar p s1 with
    | none => none
    | some s2 => inicializarLaco rs n (i + 1) s2

/-- The function `inicializarFila`; `srand(time(NULL))` only selects the random values
`rs`. -/
def inicializarFila (rs : Nat → Nat) (s : Estado) : Option Estado :=
  let s0 := { s with saida := s.saida ++ ["--- Inicializando Fila de Pecas ---\n"] }
  match inicializarLaco rs TAMANHO_FILA 0 s0 with
  | none => none
  | some s1 =>
    some { s1 with saida := s1.saida ++
      ["Fila inicializada com " ++ toString (TAMANHO_FILA : Int) ++ " pecas.\n"] }

/-- One slot listed by `exibirFila`: its index, the piece printed, and whether the
`(Frente)` and `(Traseira)` markers are printed after it. -/
structure Entrada where
  indice : Int
  peca : Peca
  marcaFrente : Bool
  marcaTraseira : Bool
deriving DecidableEq, Repr

/-- The `while (pecasExibidas < contadorPecas)` loop of `exibirFila`: `n` is the number of
iterations still to run, `contadorPecas - pecasExibidas`, and `i` the loop index. -/
def exibirLaco (s : Estado) : Nat → Int → Option (List Entrada)
  | 0, _ => some []
  | n + 1, i =>
    match lerFila s.filaPecas i with
    | none => none
    | some p =>
      match exibirLaco s n (Int.tmod (wrapInt (i + 1)) TAMANHO_FILA) with
      | none => none
      | some resto =>
        some ({ indice := i, peca := p, marcaFrente := i == s.frente,
                marcaTraseira := i == s.traseira } :: resto)

/-- The slots `exibirFila` lists in state `s` (the empty list when it takes the early
return of the empty queue). -/
def exibirEntradas (s : Estado) : Option (List Entrada) :=
  if isFilaVazia s then some [] else exibirLaco s s.contadorPecas.toNat s.frente

/-- The `printf` calls of one iteration of the display loop. -/
def fmtEntrada (e : Entrada) : List String :=
  [fmtPeca e.peca] ++ (if e.marcaFrente then ["(Frente)"] else []) ++
    (if e.marcaTraseira then ["(Traseira)"] else []) ++ [" "]

/-- The function `exibirFila`: the state with the text of the display printed. -/
def exibirFila (s : Estado) : Option Estado :=
  let cab := s.saida ++ ["\n--- Estado Atual da Fila de Pecas ---\n"]
  if isFilaVazia s then
    some { s with saida := cab ++ ["A fila esta vazia.\n"] }
  else
    match exibirLaco s s.contadorPecas.toNat s.frente with
    | none => none
    | some es =>
      some { s with saida := cab ++ ["Fila de Pecas: "] ++ (es.map fmtEntrada).flatten ++
        ["\nTotal de Pecas: " ++ toString s.contadorPecas ++ " / " ++
            toString (TAMANHO_FILA : Int) ++ "\n",
         "--------------------------------------\n"] }

/-- The function `exibirMenu`. -/
def exibirMenu (s : Estado) : Estado :=
  { s with saida := s.saida ++
    ["\n======================================\n",
     "        Tetris Stack - Fila         \n",
     "======================================\n",
     "Opcoes de acao:\n",
     "Codigo | Acao\n",
     "--------------------------------------\n",
     "  1    | Jogar peca (dequeue)\n",
     "  2    | Inserir nova peca (enqueue)\n",
     "  0    | Sair\n",
     "--------------------------------------\n",
     "Selecione uma opcao: "] }

/-- What `scanf("%d", &escolha)` finds on the input: an integer as typed, of any size; a
line that is not a number (which the program then discards up to its newline); or the
end of the input, also after text that is not a number and has no newline. -/
inductive Leitura where
  | numero (n : Int)
  | naoNumerica
  | fimDeEntrada
deriving DecidableEq, Repr

/-- The value `scanf("%d", &escolha)` leaves in the 32-bit `int escolha` when the integer
`n` is typed. For `n` in the range of `int` it is `n`. Outside that range the C standard
does not fix the value; this is what the GNU C library does where `long` has 64 bits: it
converts the digits as a `long`, saturating at the ends of its range, and the store into
the `int` keeps the low 32 bits. -/
def escolhaLida (n : Int) : Int :=
  wrapInt (if n < -2 ^ 63 then -2 ^ 63 else if 2 ^ 63 - 1 < n then 2 ^ 63 - 1 else n)

/-- What a run of `main` lets an observer see of the queue: the piece a call of
`desenfileirar` returned (the local `pecaJogada`), and the slots a call of `exibirFila`
listed. -/
inductive Evento where
  | jogada (p : Peca)
  | exibicao (es : List Entrada)
deriving DecidableEq, Repr

/-- A call `exibirFila()` made by `main`, together with the event recording what it
listed. -/
def exibirFilaEv (s : Estado) : Option (List Evento × Estado) :=
  match exibirEntradas s, exibirFila s with
  | some es, some s1 => some ([Evento.exibicao es], s1)
  | _, _ => none

/-- The `switch (escolha)` of `main`; `r` is the value `rand()` returns if it is called.
Returns the events of this action and the new state. -/
def executarAcao (escolha : Int) (r : Nat) (s : Estado) : Option (List Evento × Estado) :=
  if escolha = 1 then
    match desenfileirar s with
    | none => none
    | some (pecaJogada, s1) =>
      match exibirFilaEv s1 with
      | none => none
      | some (ev, s2) => some (Evento.jogada pecaJogada :: ev, s2)
  else if escolha = 2 then
    let (novaPeca, s1) := gerarPeca r s
    match enfileirar novaPeca s1 with
    | none => none
    | some s2 => exibirFilaEv s2
  else if escolha = 0 then
    some ([], { s with saida := s.saida ++
      ["Encerrando simulacao. Obrigado por testar o controle de pecas do Tetris Stack!\n"] })
  else
    exibirFilaEv { s with saida := s.saida ++
      ["Opcao invalida. Por favor, escolha 1, 2 ou 0.\n"] }

/-- How one pass through the body of the `do ... while` loop of `main` ends: it completes,
leaving a value in `escolha`, with the events of the pass and the new state; or it never
returns, the program staying for ever in the state given. -/
inductive Passo where
  | completo (escolha : Int) (ev : List Evento) (s : Estado)
  | semRetorno (s : Estado)

/-- One pass through the body of the `do ... while` loop of `main`. At the end of the
input `scanf` fails, the message is printed and the loop `while (getchar() != '\n');`
never ends, as `getchar` keeps returning `EOF`. -/
def iteracao (l : Leitura) (r : Nat) (s : Estado) : Option Passo :=
  let s0 := exibirMenu s
  match l with
  | Leitura.fimDeEntrada =>
    some (Passo.semRetorno { s0 with saida := s0.saida ++
      ["Entrada invalida. Por favor, digite um numero.\n"] })
  | Leitura.naoNumerica =>
    some (Passo.completo (-1) [] { s0 with saida := s0.saida ++
      ["Entrada invalida. Por favor, digite um numero.\n"] })
  | Leitura.numero n =>
    let escolha := escolhaLida n
    let s1 := { s0 with saida := s0.saida ++ ["\n--- Executando Acao ---\n"] }
    match executarAcao escolha r s1 with
    | none => none
    | some (ev, s2) => some (Passo.completo escolha ev s2)

/-- The `do ... while (escolha != 0)` loop of `main` on a finite list of inputs, each
paired with the value `rand()` would return in that iteration: the events in order and the
state reached when the loop exits (an input stored as 0), when a pass never returns (the
end of the input; the inputs listed after it are not read), or when the inputs are used
up (the program waits for the next one). The result is `none` only if an access to the
array is out of bounds. -/
def laco : List (Leitura × Nat) → Estado → Option (List Evento × Estado)
  | [], s => some ([], s)
  | (l, r) :: resto, s =>
    match iteracao l r s with
    | none => none
    | some (Passo.semRetorno s1) => some ([], s1)
    | some (Passo.completo escolha ev s1) =>
      if escolha ≠ 0 then
        match laco resto s1 with
        | none => none
        | some (evs, s2) => some (ev ++ evs, s2)
      else some (ev, s1)

/-- The start of `main`: `inicializarFila(); exibirFila();`. -/
def inicio (rs : Nat → Nat) : Option (List Evento × Estado) :=
  match inicializarFila rs estadoInicial with
  | none => none
  | some s => exibirFilaEv s

/-- The function `main` on a finite list of inputs. -/
def main (rs : Nat → Nat) (entradas : List (Leitura × Nat)) : Option (List Evento × Estado) :=
  match inicio rs with
  | none => none
  | some (ev, s) =>
    match laco entradas s with
    | none => none
    | some (evs, s1) => some (ev ++ evs, s1)

/-- A call of one of the operations of the queue. -/
inductive Chamada where
  | enfileirar (p : Peca)
  | desenfileirar
  | gerarPeca (r : Nat)
  | exibirFila

/-- The state after one call. -/
def chamar (c : Chamada) (s : Estado) : Option Estado :=
  match c with
  | Chamada.enfileirar p => enfileirar p s
  | Chamada.desenfileirar => (desenfileirar s).map Prod.snd
  | Chamada.gerarPeca r => some (gerarPeca r s).2
  | Chamada.exibirFila => exibirFila s

/-- The state after a sequence of calls, in order. -/
def executar : List Chamada → Estado → Option Estado
  | [], s => some s
  | c :: cs, s =>
    match chamar c s with
    | none => none
    | some s1 => executar cs s1

/-- The states reachable from the initial state by a finite sequence of calls. -/
def Alcancavel (s : Estado) : Prop := ∃ cs, executar cs estadoInicial = some s

/-- The slot holding the `k`-th piece counted from the front, `(frente + k) % TAMANHO_FILA`. -/
def indiceLogico (s : Estado) (k : Nat) : Fin TAMANHO_FILA :=
  ⟨((s.frente + (k : Int)) % (TAMANHO_FILA : Int)).toNat,
    by simp only [TAMANHO_FILA, Nat.cast_ofNat]; omega⟩

/-- The logical content of the queue, front to back: the `contadorPecas` slots starting
at `frente` and walking forward circularly. -/
def seqLogica (s : Estado) : List Peca :=
  (List.range s.contadorPecas.toNat).map (fun k => s.filaPecas (indiceLogico s k))

/-- The representation invariant of the circular queue. -/
def Inv (s : Estado) : Prop :=
  0 ≤ s.frente ∧ s.frente < TAMANHO_FILA ∧ -1 ≤ s.traseira ∧ s.traseira < TAMANHO_FILA ∧
  0 ≤ s.contadorPecas ∧ s.contadorPecas ≤ TAMANHO_FILA ∧
  (s.traseira + 1) % (TAMANHO_FILA : Int) = (s.frente + s.contadorPecas) % (TAMANHO_FILA : Int)

/-- Calls of `enfileirar` on each piece of a list, in order. -/
def enfileirarTodas : List Peca → Estado → Option Estado
  | [], s => some s
  | p :: ps, s =>
    match enfileirar p s with
    | none => none
    | some s1 => enfileirarTodas ps s1

/-- Calls of `desenfileirar`, `n` times: the pieces returned, in order, and the last
state. -/
def desenfileirarN : Nat → Estado → Option (List Peca × Estado)
  | 0, s => some ([], s)
  | n + 1, s =>
    match desenfileirar s with
    | none => none
    | some (p, s1) =>
      match desenfileirarN n s1 with
      | none => none
      | some (ps, s2) => some (p :: ps, s2)

/-- The kind `gerarPeca` chooses when `rand()` returns `r`. -/
def nomeGerado (r : Nat) : Char := (gerarPeca r estadoInicial).1.nome

/-- The slot of the array at position `j` taken circularly, `j % TAMANHO_FILA`. -/
def slot (j : Int) : Fin TAMANHO_FILA :=
  ⟨(j % (TAMANHO_FILA : Int)).toNat, by simp only [TAMANHO_FILA, Nat.cast_ofNat]; omega⟩

/-- The display entry for position `j` taken circularly: the index, the piece stored
there and the two markers. -/
def entradaDe (s : Estado) (j : Int) : Entrada :=
  { indice := j % (TAMANHO_FILA : Int)
    peca := s.filaPecas (slot j)
    marcaFrente := j % (TAMANHO_FILA : Int) == s.frente
    marcaTraseira := j % (TAMANHO_FILA : Int) == s.traseira }

/-- An example state: a full queue whose front is in the middle of the array. -/
def estadoCheio : Estado :=
  { filaPecas := fun i => { nome := 'T', id := (i.val : Int) }
    frente := 2
    traseira := 1
    contadorPecas := 5
    idProximaPeca := 8
    saida := [] }

/-- An example state: the initial state after `enfileirar` of the piece `I 0`. -/
def estadoUm : Estado :=
  { filaPecas := Function.update estadoInicial.filaPecas 0 { nome := 'I', id := 0 }
    frente := 0
    traseira := 0
    contadorPecas := 1
    idProximaPeca := 0
    saida := [msgInserida { nome := 'I', id := 0 }] }

/-- The number of calls of `gerarPeca` the loop of `main` makes on a list of inputs: the
inputs stored as `2` that come before the first input stored as `0` and before the end
of the input. -/
def numInsercoes : List (Leitura × Nat) → Nat
  | [] => 0
  | (Leitura.fimDeEntrada, _) :: _ => 0
  | (Leitura.naoNumerica, _) :: resto => numInsercoes resto
  | (Leitura.numero n, _) :: resto =>
    if escolhaLida n = 0 then 0
    else if escolhaLida n = 2 then numInsercoes resto + 1
    else numInsercoes resto

/-- An earlier event `x` and a later event `y` of a run respect "a removed piece does not
reappear": if `x` is the return of a piece by `desenfileirar` and `y` a display of the
queue, no entry of the display has the id of that piece. -/
def NaoReaparece (x y : Evento) : Prop :=
  ∀ p es, x = Evento.jogada p → y = Evento.exibicao es → ∀ e ∈ es, e.peca.id ≠ p.id

/-- The ids of a front-to-back content `l` are strictly increasing and lie in `[0, n)`. -/
def OrdAbs (l : List Peca) (n : Int) : Prop :=
  0 ≤ n ∧ (l.map Peca.id).Pairwise (fun a b => a < b) ∧ ∀ q ∈ l, 0 ≤ q.id ∧ q.id < n

/-- The ids stored in the queue are strictly increasing front to back and lie in
`[0, idProximaPeca)`. -/
def IdsOrdenados (s : Estado) : Prop := OrdAbs (seqLogica s) s.idProximaPeca

/-- All ids of `l`, and the next id `n`, are above `m`. -/
def AcimaAbs (m : Int) (l : List Peca) (n : Int) : Prop := m < n ∧ ∀ q ∈ l, m < q.id

/-- All ids stored in the queue, and the next id to be given out, are above `m`. -/
def Acima (m : Int) (s : Estado) : Prop := AcimaAbs m (seqLogica s) s.idProximaPeca

/-- Every display among the events lists only ids above `m`. -/
def EvAcima (m : Int) (evs : List Evento) : Prop :=
  ∀ es, Evento.exibicao es ∈ evs → ∀ e ∈ es, m < e.peca.id

/-- What one action of the loop of `main` guarantees, from state `s` to state `s1` with
events `ev`, when it generates `n` pieces. -/
def PassoOK (n : Int) (s : Estado) (ev : List Evento) (s1 : Estado) : Prop :=
  Inv s1 ∧ IdsOrdenados s1 ∧ s1.idProximaPeca = s.idProximaPeca + n ∧
  ev.Pairwise NaoReaparece ∧ (∀ m, Acima m s → Acima m s1 ∧ EvAcima m ev) ∧
  ∀ p, Evento.jogada p ∈ ev → Acima p.id s1

/-- The value the loop of `main` finds in `escolha` after a pass that completes (at the
end of the input, where the pass never returns, the `-1` of the assignment that would
follow the discarding loop). -/
def valorLido : Leitura → Int
  | Leitura.numero n => escolhaLida n
  | Leitura.naoNumerica => -1
  | Leitura.fimDeEntrada => -1

/-- The number of pieces one input makes the loop generate. -/
def geradasPor : Leitura → Int
  | Leitura.numero n => if escolhaLida n = 2 then 1 else 0
  | Leitura.naoNumerica => 0
  | Leitura.fimDeEntrada => 0

/-- An example state: five pieces enqueued into the initial state and three of them
dequeued, so that the next insertions wrap around the end of the array. -/
def estadoGirado : Estado :=
  { filaPecas := Function.update (Function.update (Function.update (Function.update
      (Function.update estadoInicial.filaPecas 0 ⟨'I', 0⟩) 1 ⟨'O', 1⟩) 2 ⟨'T', 2⟩)
      3 ⟨'L', 3⟩) 4 ⟨'J', 4⟩
    frente := 3
    traseira := 4
    contadorPecas := 2
    idProximaPeca := 0
    saida := [msgInserida ⟨'I', 0⟩, msgInserida ⟨'O', 1⟩, msgInserida ⟨'T', 2⟩,
      msgInserida ⟨'L', 3⟩, msgInserida ⟨'J', 4⟩, msgRemovida ⟨'I', 0⟩,
      msgRemovida ⟨'O', 1⟩, msgRemovida ⟨'T', 2⟩] }

/-- An example state: `estadoGirado` after two more pieces are enqueued, so that the tail
index has wrapped around to 1 while the front is at 3. -/
def estadoEnrolado : Estado :=
  { filaPecas := Function.update (Function.update estadoGirado.filaPecas 0 ⟨'Z', 5⟩)
      1 ⟨'S', 6⟩
    frente := 3
    traseira := 1
    contadorPecas := 4
    idProximaPeca := 0
    saida := estadoGirado.saida ++ [msgInserida ⟨'Z', 5⟩, msgInserida ⟨'S', 6⟩] }

/-- The piece most recently enqueued with success, after one more call made in state `s`:
a call of `enfileirar` on a queue that is not full (the branch that stores the piece)
replaces it. -/
def ultimaApos (c : Chamada) (s : Estado) (u : Option Peca) : Option Peca :=
  match c with
  | Chamada.enfileirar p => if isFilaCheia s then u else some p
  | _ => u

/-- The state after a sequence of calls, together with the piece most recently enqueued
with success (`none` as long as no enqueue has succeeded). -/
def executarComUltima : List Chamada → Estado → Option Peca → Option (Estado × Option Peca)
  | [], s, u => some (s, u)
  | c :: cs, s, u =>
    match chamar c s with
    | none => none
    | some s1 => executarComUltima cs s1 (ultimaApos c s u)

/-- The invariant relating `traseira` to the piece most recently enqueued with success. -/
def InvU (s : Estado) (u : Option Peca) : Prop :=
  Inv s ∧ (u = none → s.traseira = -1 ∧ s.contadorPecas = 0) ∧
  ∀ p, u = some p → 0 ≤ s.traseira ∧ s.filaPecas (slot s.traseira) = p

/-- The abstract bounded FIFO list of the specification, insertion: the piece is appended
if the list holds fewer than `TAMANHO_FILA` pieces, and the list is unchanged otherwise. -/
def absEnfileirar (l : List Peca) (p : Peca) : List Peca :=
  if l.length < TAMANHO_FILA then l ++ [p] else l

/-- The abstract bounded FIFO list of the specification, removal: the head is returned and
the tail remains if the list is not empty; otherwise the error piece is returned and the
list is unchanged. -/
def absDesenfileirar (l : List Peca) : Peca × List Peca :=
  match l with
  | [] => (pecaErro, [])
  | p :: resto => (p, resto)

/-- The effect of one pass of the loop of `main` on the content `l` of the queue and on
the next id `n`: nothing; the front piece removed; an id consumed by an insertion that
the full queue rejected; or a generated piece with id `n` appended. -/
def PassoAbs (l : List Peca) (n : Int) (l1 : List Peca) (n1 : Int) : Prop :=
  (l1 = l ∧ n1 = n) ∨ (∃ p, l = p :: l1 ∧ n1 = n) ∨
  (l1 = l ∧ l.length = TAMANHO_FILA ∧ n1 = n + 1) ∨
  (∃ r, l1 = l ++ [⟨nomeGerado r, n⟩] ∧ n1 = n + 1)

/-! ## Basic facts -/

theorem wrapInt_eq (x : Int) (h1 : -2 ^ 31 ≤ x) (h2 : x < 2 ^ 31) : wrapInt x = x := by
  unfold wrapInt
  omega

theorem inv_estadoInicial : Inv estadoInicial := by
  simp [Inv, estadoInicial]

/-- On a state satisfying the invariant and not full, `enfileirar` writes the slot after
the logical content and counts one more piece. -/
theorem enfileirar_eq (p : Peca) (s : Estado) (hinv : Inv s)
    (h : s.contadorPecas < TAMANHO_FILA) :
    enfileirar p s = some { s with
      traseira := (s.frente + s.contadorPecas) % (TAMANHO_FILA : Int)
      filaPecas := Function.update s.filaPecas (indiceLogico s s.contadorPecas.toNat) p
      contadorPecas := s.contadorPecas + 1
      saida := s.saida ++ [msgInserida p] } := by
  obtain ⟨h1, h2, h3, h4, h5, h6, h7⟩ := hinv
  simp only [TAMANHO_FILA, Nat.cast_ofNat] at *
  have hw1 : wrapInt (s.traseira + 1) = s.traseira + 1 := wrapInt_eq _ (by omega) (by omega)
  have hw2 : wrapInt (s.contadorPecas + 1) = s.contadorPecas + 1 :=
    wrapInt_eq _ (by omega) (by omega)
  have ht : Int.tmod (s.traseira + 1) 5 = (s.frente + s.contadorPecas) % 5 := by
    rw [Int.tmod_eq_emod (by omega) (by omega)]; exact h7
  have hne : ¬ s.contadorPecas = 5 := by omega
  have hc : ((s.contadorPecas.toNat : Nat) : Int) = s.contadorPecas := by omega
  simp only [enfileirar, isFilaCheia, escreverFila, indiceLogico, TAMANHO_FILA, Nat.cast_ofNat,
    hw1, hw2, ht, hc, beq_iff_eq, hne, if_false]
  rw [dif_pos (by omega)]

/-- On a full queue `enfileirar` only prints the error line. -/
theorem enfileirar_cheia (p : Peca) (s : Estado) (h : s.contadorPecas = TAMANHO_FILA) :
    enfileirar p s = some { s with saida := s.saida ++ [msgFilaCheia] } := by
  simp [enfileirar, isFilaCheia, h]

/-- On an empty queue `desenfileirar` only prints the error line and returns the error
piece. -/
theorem desenfileirar_vazia (s : Estado) (h : s.contadorPecas = 0) :
    desenfileirar s = some (pecaErro, { s with saida := s.saida ++ [msgFilaVazia] }) := by
  simp [desenfileirar, isFilaVazia, h]

/-- On a state satisfying the invariant and not empty, `desenfileirar` returns the piece
in the front slot and advances `frente`. -/
theorem desenfileirar_eq (s : Estado) (hinv : Inv s) (h : 0 < s.contadorPecas) :
    desenfileirar s = some (s.filaPecas (indiceLogico s 0), { s with
      frente := (s.frente + 1) % (TAMANHO_FILA : Int)
      contadorPecas := s.contadorPecas - 1
      saida := s.saida ++ [msgRemovida (s.filaPecas (indiceLogico s 0))] }) := by
  obtain ⟨h1, h2, h3, h4, h5, h6, h7⟩ := hinv
  simp only [TAMANHO_FILA, Nat.cast_ofNat] at *
  have hw1 : wrapInt (s.frente + 1) = s.frente + 1 := wrapInt_eq _ (by omega) (by omega)
  have hw2 : wrapInt (s.contadorPecas - 1) = s.contadorPecas - 1 :=
    wrapInt_eq _ (by omega) (by omega)
  have ht : Int.tmod (s.frente + 1) 5 = (s.frente + 1) % 5 :=
    Int.tmod_eq_emod (by omega) (by omega)
  have hne : ¬ s.contadorPecas = 0 := by omega
  have hf : s.frente % 5 = s.frente := Int.emod_eq_of_lt h1 h2
  simp only [desenfileirar, isFilaVazia, lerFila, indiceLogico, TAMANHO_FILA, Nat.cast_ofNat,
    hw1, hw2, ht, hf, beq_iff_eq, hne, if_false, Nat.cast_zero, add_zero]
  rw [dif_pos ⟨h1, h2⟩]

theorem inv_enfileirar (p : Peca) (s s1 : Estado) (hinv : Inv s)
    (h : enfileirar p s = some s1) : Inv s1 := by
  by_cases hc : s.contadorPecas = TAMANHO_FILA
  · rw [enfileirar_cheia p s hc] at h
    cases h
    exact hinv
  · have hlt : s.contadorPecas < TAMANHO_FILA := lt_of_le_of_ne hinv.2.2.2.2.2.1 hc
    rw [enfileirar_eq p s hinv hlt] at h
    cases h
    obtain ⟨h1, h2, h3, h4, h5, h6, h7⟩ := hinv
    simp only [Inv, TAMANHO_FILA, Nat.cast_ofNat] at *
    omega

theorem inv_desenfileirar (s s1 : Estado) (p : Peca) (hinv : Inv s)
    (h : desenfileirar s = some (p, s1)) : Inv s1 := by
  by_cases hc : s.contadorPecas = 0
  · rw [desenfileirar_vazia s hc] at h
    cases h
    exact hinv
  · have hlt : 0 < s.contadorPecas := lt_of_le_of_ne hinv.2.2.2.2.1 (Ne.symm hc)
    rw [desenfileirar_eq s hinv hlt] at h
    cases h
    obtain ⟨h1, h2, h3, h4, h5, h6, h7⟩ := hinv
    simp only [Inv, TAMANHO_FILA, Nat.cast_ofNat] at *
    omega

theorem inv_gerarPeca (r : Nat) (s : Estado) (hinv : Inv s) : Inv (gerarPeca r s).2 := hinv

theorem indiceLogico_ne (s : Estado) (k n : Nat) (hkn : k < n) (hn : n < TAMANHO_FILA) :
    indiceLogico s k ≠ indiceLogico s n := by
  intro h
  have h2 := congrArg Fin.val h
  simp only [indiceLogico, TAMANHO_FILA, Nat.cast_ofNat] at h2 hn
  omega

/-- A successful enqueue appends the piece to the logical content. -/
theorem seqLogica_enfileirar (p : Peca) (s s1 : Estado) (hinv : Inv s)
    (h : s.contadorPecas < TAMANHO_FILA) (he : enfileirar p s = some s1) :
    seqLogica s1 = seqLogica s ++ [p] := by
  rw [enfileirar_eq p s hinv h] at he
  cases he
  have h5 : 0 ≤ s.contadorPecas := hinv.2.2.2.2.1
  have hn : (s.contadorPecas + 1).toNat = s.contadorPecas.toNat + 1 := by omega
  have hlt : s.contadorPecas.toNat < TAMANHO_FILA := by
    simp only [TAMANHO_FILA, Nat.cast_ofNat] at h ⊢
    omega
  simp only [seqLogica, hn, List.range_succ, List.map_append, List.map_cons, List.map_nil]
  congr 1
  · apply List.map_congr_left
    intro k hk
    have hk2 : k < s.contadorPecas.toNat := List.mem_range.mp hk
    exact Function.update_noteq (indiceLogico_ne s k _ hk2 hlt) _ _
  · exact congrArg (fun x => [x])
      (Function.update_same (indiceLogico s s.contadorPecas.toNat) p s.filaPecas)

/-- A successful dequeue returns the first piece of the logical content and leaves the
rest. -/
theorem seqLogica_desenfileirar (s s1 : Estado) (p : Peca) (hinv : Inv s)
    (h : 0 < s.contadorPecas) (hd : desenfileirar s = some (p, s1)) :
    seqLogica s = p :: seqLogica s1 := by
  rw [desenfileirar_eq s hinv h] at hd
  cases hd
  obtain ⟨n, hn⟩ : ∃ n, s.contadorPecas.toNat = n + 1 := ⟨s.contadorPecas.toNat - 1, by omega⟩
  have hn1 : (s.contadorPecas - 1).toNat = n := by omega
  simp only [seqLogica, hn, hn1, List.range_succ_eq_map, List.map_cons, List.map_map]
  congr 1
  apply List.map_congr_left
  intro k _
  simp only [Function.comp_apply]
  congr 1
  apply Fin.ext
  simp only [indiceLogico, TAMANHO_FILA, Nat.cast_ofNat, Nat.cast_succ]
  congr 1
  omega

theorem seqLogica_length (s : Estado) : (seqLogica s).length = s.contadorPecas.toNat := by
  simp [seqLogica]

theorem entradaDe_congr (s : Estado) (j j1 : Int)
    (h : j % (TAMANHO_FILA : Int) = j1 % (TAMANHO_FILA : Int)) :
    entradaDe s j = entradaDe s j1 := by
  have hs : slot j = slot j1 := by
    apply Fin.ext
    simp only [slot, h]
  simp only [entradaDe, h, hs]

/-- The display loop started at a valid index `i` lists `n` consecutive positions. -/
theorem exibirLaco_eq (s : Estado) (n : Nat) :
    ∀ i : Int, 0 ≤ i → i < TAMANHO_FILA →
      exibirLaco s n i = some ((List.range n).map (fun (k : Nat) => entradaDe s (i + (k : Int)))) := by
  induction n with
  | zero => intro i _ _; rfl
  | succ n ih =>
    intro i h0 h1
    simp only [TAMANHO_FILA, Nat.cast_ofNat] at h1
    have hw : wrapInt (i + 1) = i + 1 := wrapInt_eq _ (by omega) (by omega)
    have ht : Int.tmod (i + 1) 5 = (i + 1) % 5 := Int.tmod_eq_emod (by omega) (by omega)
    have hi : i % 5 = i := Int.emod_eq_of_lt h0 h1
    have hl : lerFila s.filaPecas i = some (s.filaPecas (slot i)) := by
      simp only [lerFila, slot, TAMANHO_FILA, Nat.cast_ofNat, hi]
      rw [dif_pos ⟨h0, h1⟩]
    have hrec := ih ((i + 1) % 5) (by omega) (by simp only [TAMANHO_FILA, Nat.cast_ofNat]; omega)
    simp only [TAMANHO_FILA, Nat.cast_ofNat] at hrec
    simp only [exibirLaco, hl, hw, ht, TAMANHO_FILA, Nat.cast_ofNat, hrec,
      List.range_succ_eq_map, List.map_cons, List.map_map]
    congr 2
    · simp only [entradaDe, TAMANHO_FILA, Nat.cast_ofNat, Nat.cast_zero, add_zero, hi]
    · apply List.map_congr_left
      intro k _
      simp only [Function.comp_apply]
      apply entradaDe_congr
      simp only [TAMANHO_FILA, Nat.cast_ofNat, Nat.cast_succ]
      omega

theorem slot_frente_add (s : Estado) (k : Nat) : slot (s.frente + (k : Int)) = indiceLogico s k :=
  rfl

/-- Under the invariant `exibirFila` lists exactly the logical positions, in order. -/
theorem exibirEntradas_eq (s : Estado) (hinv : Inv s) :
    exibirEntradas s =
      some ((List.range s.contadorPecas.toNat).map (fun (k : Nat) => entradaDe s (s.frente + (k : Int)))) := by
  unfold exibirEntradas
  by_cases hv : s.contadorPecas = 0
  · simp [isFilaVazia, hv]
  · simp only [isFilaVazia, beq_iff_eq, hv, if_false]
    exact exibirLaco_eq s _ s.frente hinv.1 hinv.2.1

/-- The pieces `exibirFila` lists are the logical content of the queue. -/
theorem exibirEntradas_pecas (s : Estado) (hinv : Inv s) :
    ∃ es, exibirEntradas s = some es ∧ es.map Entrada.peca = seqLogica s := by
  refine ⟨_, exibirEntradas_eq s hinv, ?_⟩
  simp only [List.map_map, seqLogica]
  apply List.map_congr_left
  intro k _
  rfl

/-- Under the invariant `exibirFila` returns, and changes only the printed text. -/
theorem exibirFila_eq (s : Estado) (hinv : Inv s) :
    ∃ txt, exibirFila s = some { s with saida := s.saida ++ txt } := by
  unfold exibirFila
  by_cases hv : s.contadorPecas = 0
  · have hb : isFilaVazia s = true := by simp [isFilaVazia, hv]
    simp only [hb, if_true, List.append_assoc]
    exact ⟨_, rfl⟩
  · have hl := exibirLaco_eq s s.contadorPecas.toNat s.frente hinv.1 hinv.2.1
    simp only [isFilaVazia, beq_iff_eq, hv, if_false, hl, List.append_assoc]
    exact ⟨_, rfl⟩

theorem inv_exibirFila (s s1 : Estado) (hinv : Inv s) (h : exibirFila s = some s1) : Inv s1 := by
  obtain ⟨txt, ht⟩ := exibirFila_eq s hinv
  rw [ht] at h
  cases h
  exact hinv

/-- Every call returns on a state satisfying the invariant, and keeps the invariant. -/
theorem chamar_inv (c : Chamada) (s : Estado) (hinv : Inv s) :
    ∃ s1, chamar c s = some s1 ∧ Inv s1 := by
  cases c with
  | enfileirar p =>
    by_cases hc : s.contadorPecas = TAMANHO_FILA
    · exact ⟨_, enfileirar_cheia p s hc, hinv⟩
    · have hlt : s.contadorPecas < TAMANHO_FILA := lt_of_le_of_ne hinv.2.2.2.2.2.1 hc
      exact ⟨_, enfileirar_eq p s hinv hlt, inv_enfileirar p s _ hinv (enfileirar_eq p s hinv hlt)⟩
  | desenfileirar =>
    by_cases hc : s.contadorPecas = 0
    · refine ⟨{ s with saida := s.saida ++ [msgFilaVazia] }, ?_, hinv⟩
      simp only [chamar, desenfileirar_vazia s hc, Option.map_some']
    · have hlt : 0 < s.contadorPecas := lt_of_le_of_ne hinv.2.2.2.2.1 (Ne.symm hc)
      have hd := desenfileirar_eq s hinv hlt
      refine ⟨_, ?_, inv_desenfileirar s _ _ hinv hd⟩
      simp only [chamar, hd, Option.map_some']
  | gerarPeca r => exact ⟨_, rfl, inv_gerarPeca r s hinv⟩
  | exibirFila =>
    obtain ⟨txt, ht⟩ := exibirFila_eq s hinv
    exact ⟨_, ht, hinv⟩

theorem executar_inv (cs : List Chamada) :
    ∀ s, Inv s → ∃ s1, executar cs s = some s1 ∧ Inv s1 := by
  induction cs with
  | nil => intro s hinv; exact ⟨s, rfl, hinv⟩
  | cons c cs ih =>
    intro s hinv
    obtain ⟨s1, h1, hinv1⟩ := chamar_inv c s hinv
    obtain ⟨s2, h2, hinv2⟩ := ih s1 hinv1
    exact ⟨s2, by simp only [executar, h1, h2], hinv2⟩

/-- Every reachable state satisfies the representation invariant. -/
theorem inv_of_alcancavel (s : Estado) (h : Alcancavel s) : Inv s := by
  obtain ⟨cs, hcs⟩ := h
  obtain ⟨s1, h1, hinv1⟩ := executar_inv cs estadoInicial inv_estadoInicial
  rw [hcs] at h1
  cases h1
  exact hinv1

theorem enfileirarTodas_seq (ps : List Peca) :
    ∀ s, Inv s → s.contadorPecas + (ps.length : Int) ≤ TAMANHO_FILA →
      ∃ s1, enfileirarTodas ps s = some s1 ∧ Inv s1 ∧ seqLogica s1 = seqLogica s ++ ps ∧
        s1.contadorPecas = s.contadorPecas + (ps.length : Int) := by
  induction ps with
  | nil => intro s hinv _; exact ⟨s, rfl, hinv, by simp, by simp⟩
  | cons p ps ih =>
    intro s hinv hlen
    simp only [List.length_cons, Nat.cast_succ, TAMANHO_FILA, Nat.cast_ofNat] at hlen
    have hlt : s.contadorPecas < TAMANHO_FILA := by
      simp only [TAMANHO_FILA, Nat.cast_ofNat]; omega
    have he := enfileirar_eq p s hinv hlt
    have hinv1 := inv_enfileirar p s _ hinv he
    have hseq := seqLogica_enfileirar p s _ hinv hlt he
    obtain ⟨s2, h2, hinv2, hseq2, hc2⟩ :=
      ih _ hinv1 (by simp only [TAMANHO_FILA, Nat.cast_ofNat]; omega)
    refine ⟨s2, by simp only [enfileirarTodas, he, h2], hinv2, ?_, ?_⟩
    · rw [hseq2, hseq]; simp
    · rw [hc2]; simp only [List.length_cons, Nat.cast_succ]; omega

theorem desenfileirarN_seq (n : Nat) :
    ∀ s, Inv s → s.contadorPecas = (n : Int) →
      ∃ s1, desenfileirarN n s = some (seqLogica s, s1) ∧ Inv s1 ∧ s1.contadorPecas = 0 ∧
        s1.filaPecas = s.filaPecas ∧ s1.traseira = s.traseira ∧
        s1.idProximaPeca = s.idProximaPeca := by
  induction n with
  | zero =>
    intro s hinv hc
    refine ⟨s, ?_, hinv, by simpa using hc, rfl, rfl, rfl⟩
    simp [desenfileirarN, seqLogica, hc]
  | succ n ih =>
    intro s hinv hc
    have hpos : 0 < s.contadorPecas := by omega
    have hd := desenfileirar_eq s hinv hpos
    have hinv1 := inv_desenfileirar s _ _ hinv hd
    have hseq := seqLogica_desenfileirar s _ _ hinv hpos hd
    obtain ⟨s2, h2, hinv2, hc2, hf2, ht2, hi2⟩ := ih _ hinv1 (by simp only []; omega)
    refine ⟨s2, ?_, hinv2, hc2, hf2, ht2, hi2⟩
    simp only [desenfileirarN, hd, h2, hseq]

theorem gerarPeca_eq (r : Nat) (s : Estado) :
    gerarPeca r s = ({ nome := nomeGerado r, id := s.idProximaPeca },
      { s with idProximaPeca := wrapInt (s.idProximaPeca + 1) }) := rfl

/-- A successful enqueue, field by field. -/
theorem enfileirar_ok (p : Peca) (s : Estado) (hinv : Inv s)
    (h : s.contadorPecas < TAMANHO_FILA) :
    ∃ s1, enfileirar p s = some s1 ∧ Inv s1 ∧ seqLogica s1 = seqLogica s ++ [p] ∧
      s1.contadorPecas = s.contadorPecas + 1 ∧ s1.idProximaPeca = s.idProximaPeca ∧
      s1.frente = s.frente :=
  ⟨_, enfileirar_eq p s hinv h, inv_enfileirar p s _ hinv (enfileirar_eq p s hinv h),
    seqLogica_enfileirar p s _ hinv h (enfileirar_eq p s hinv h), rfl, rfl, rfl⟩

/-- The filling loop appends `n` freshly generated pieces, numbered consecutively. -/
theorem inicializarLaco_seq (rs : Nat → Nat) (n : Nat) :
    ∀ (i : Nat) (s : Estado), Inv s → s.contadorPecas + (n : Int) ≤ TAMANHO_FILA →
      0 ≤ s.idProximaPeca → s.idProximaPeca + (n : Int) < 2 ^ 31 →
      ∃ s1, inicializarLaco rs n i s = some s1 ∧ Inv s1 ∧
        seqLogica s1 = seqLogica s ++ (List.range n).map
          (fun (j : Nat) => { nome := nomeGerado (rs (i + j)), id := s.idProximaPeca + (j : Int) }) ∧
        s1.contadorPecas = s.contadorPecas + (n : Int) ∧
        s1.idProximaPeca = s.idProximaPeca + (n : Int) ∧ s1.frente = s.frente := by
  induction n with
  | zero => intro i s hinv _ _ _; exact ⟨s, rfl, hinv, by simp, by simp, by simp, rfl⟩
  | succ n ih =>
    intro i s hinv hc h0 hmax
    simp only [Nat.cast_add, Nat.cast_one, TAMANHO_FILA, Nat.cast_ofNat] at hc hmax
    have hw : wrapInt (s.idProximaPeca + 1) = s.idProximaPeca + 1 :=
      wrapInt_eq _ (by omega) (by omega)
    have hlt : s.contadorPecas < (TAMANHO_FILA : Int) := by
      simp only [TAMANHO_FILA, Nat.cast_ofNat]; omega
    obtain ⟨s1, he, hinv1, hseq1, hc1, hid1, hf1⟩ :=
      enfileirar_ok { nome := nomeGerado (rs i), id := s.idProximaPeca }
        { s with idProximaPeca := wrapInt (s.idProximaPeca + 1) } hinv hlt
    have hs0 : seqLogica { s with idProximaPeca := wrapInt (s.idProximaPeca + 1) } =
        seqLogica s := rfl
    rw [hs0] at hseq1
    simp only [hw] at hc1 hid1 hf1
    obtain ⟨s2, h2, hinv2, hseq2, hc2, hid2, hf2⟩ := ih (i + 1) s1 hinv1
      (by simp only [TAMANHO_FILA, Nat.cast_ofNat]; omega) (by omega) (by omega)
    refine ⟨s2, ?_, hinv2, ?_, ?_, ?_, ?_⟩
    · simp only [inicializarLaco, gerarPeca_eq, he, h2]
    · rw [hseq2, hseq1, hid1, List.range_succ_eq_map, List.map_cons, List.map_map,
        List.append_assoc]
      congr 1
      simp only [List.singleton_append, Nat.cast_zero, add_zero]
      congr 1
      apply List.map_congr_left
      intro j _
      have e1 : i + 1 + j = i + (j + 1) := by omega
      have e2 : s.idProximaPeca + 1 + (j : Int) = s.idProximaPeca + ((j : Int) + 1) := by omega
      simp only [Function.comp_apply, Nat.cast_add, Nat.cast_one, Nat.succ_eq_add_one, e1, e2]
    · rw [hc2, hc1]; simp only [Nat.cast_add, Nat.cast_one]; omega
    · rw [hid2, hid1]; simp only [Nat.cast_add, Nat.cast_one]; omega
    · rw [hf2, hf1]

/-- The first five pieces, as `inicializarFila` generates them from the initial state. -/
theorem inicializarFila_seq (rs : Nat → Nat) :
    ∃ s, inicializarFila rs estadoInicial = some s ∧ Inv s ∧
      seqLogica s = (List.range 5).map
        (fun (j : Nat) => ({ nome := nomeGerado (rs j), id := (j : Int) } : Peca)) ∧
      s.contadorPecas = 5 ∧ s.idProximaPeca = 5 ∧ s.frente = 0 := by
  obtain ⟨s1, h1, hinv1, hseq1, hc1, hid1, hf1⟩ := inicializarLaco_seq rs 5 0
    { estadoInicial with saida := estadoInicial.saida ++ ["--- Inicializando Fila de Pecas ---\n"] }
    inv_estadoInicial (by decide) (by decide) (by decide)
  refine ⟨{ s1 with saida := s1.saida ++
      ["Fila inicializada com " ++ toString ((TAMANHO_FILA : Nat) : Int) ++ " pecas.\n"] },
    by simp only [inicializarFila, h1], hinv1, ?_, hc1, hid1, hf1⟩
  have hs : seqLogica { s1 with saida := s1.saida ++
      ["Fila inicializada com " ++ toString ((TAMANHO_FILA : Nat) : Int) ++ " pecas.\n"] } =
      seqLogica s1 := rfl
  rw [hs, hseq1]
  simp [seqLogica, estadoInicial]

theorem alcancavel_estadoUm : Alcancavel estadoUm :=
  ⟨[Chamada.enfileirar { nome := 'I', id := 0 }], rfl⟩

theorem alcancavel_estadoInicial : Alcancavel estadoInicial := ⟨[], rfl⟩

theorem alcancavel_estadoGirado : Alcancavel estadoGirado :=
  ⟨[Chamada.enfileirar ⟨'I', 0⟩, Chamada.enfileirar ⟨'O', 1⟩, Chamada.enfileirar ⟨'T', 2⟩,
    Chamada.enfileirar ⟨'L', 3⟩, Chamada.enfileirar ⟨'J', 4⟩, Chamada.desenfileirar,
    Chamada.desenfileirar, Chamada.desenfileirar], rfl⟩

/-- Reading the array after a write to the slot of position `j`. -/
theorem lerFila_update (a : Fin TAMANHO_FILA → Peca) (j i : Int) (p : Peca) :
    lerFila (Function.update a (slot j) p) i =
      if i = j % (TAMANHO_FILA : Int) then some p else lerFila a i := by
  unfold lerFila
  by_cases hr : 0 ≤ i ∧ i < (TAMANHO_FILA : Int)
  · rw [dif_pos hr, dif_pos hr]
    by_cases hi : i = j % (TAMANHO_FILA : Int)
    · have hfin : (⟨i.toNat, by omega⟩ : Fin TAMANHO_FILA) = slot j := by
        apply Fin.ext
        simp only [slot, hi]
      rw [if_pos hi, hfin, Function.update_same]
    · have hfin : (⟨i.toNat, by omega⟩ : Fin TAMANHO_FILA) ≠ slot j := by
        intro h
        have h2 := congrArg Fin.val h
        simp only [slot, TAMANHO_FILA, Nat.cast_ofNat] at h2 hi hr
        omega
      rw [if_neg hi, Function.update_noteq hfin]
  · have hi : i ≠ j % (TAMANHO_FILA : Int) := by
      intro h
      simp only [TAMANHO_FILA, Nat.cast_ofNat] at hr h
      omega
    rw [dif_neg hr, dif_neg hr, if_neg hi]

theorem ordAbs_pop (p : Peca) (l : List Peca) (n : Int) (h : OrdAbs (p :: l) n) :
    OrdAbs l n ∧ AcimaAbs p.id l n := by
  obtain ⟨h0, hp, hm⟩ := h
  rw [List.map_cons, List.pairwise_cons] at hp
  refine ⟨⟨h0, hp.2, fun q hq => hm q (List.mem_cons_of_mem _ hq)⟩,
    (hm p (List.mem_cons_self _ _)).2, fun q hq => hp.1 q.id (List.mem_map_of_mem _ hq)⟩

theorem ordAbs_push (c : Char) (l : List Peca) (n : Int) (h : OrdAbs l n) :
    OrdAbs (l ++ [⟨c, n⟩]) (n + 1) := by
  obtain ⟨h0, hp, hm⟩ := h
  refine ⟨by omega, ?_, ?_⟩
  · rw [List.map_append, List.pairwise_append]
    refine ⟨hp, by simp, ?_⟩
    intro a ha b hb
    obtain ⟨q, hq, rfl⟩ := List.mem_map.mp ha
    simp only [List.map_cons, List.map_nil, List.mem_singleton] at hb
    rw [hb]
    exact (hm q hq).2
  · intro q hq
    rcases List.mem_append.mp hq with hq | hq
    · have := hm q hq
      omega
    · simp only [List.mem_singleton] at hq
      rw [hq]
      simp only []
      omega

theorem ordAbs_gen (l : List Peca) (n : Int) (h : OrdAbs l n) : OrdAbs l (n + 1) := by
  obtain ⟨h0, hp, hm⟩ := h
  refine ⟨by omega, hp, fun q hq => ?_⟩
  have := hm q hq
  omega

theorem ordAbs_acima (l : List Peca) (n : Int) (h : OrdAbs l n) : AcimaAbs (-1) l n := by
  obtain ⟨h0, _, hm⟩ := h
  refine ⟨by omega, fun q hq => ?_⟩
  have := hm q hq
  omega

theorem acimaAbs_pop (m : Int) (p : Peca) (l : List Peca) (n : Int)
    (h : AcimaAbs m (p :: l) n) : AcimaAbs m l n :=
  ⟨h.1, fun q hq => h.2 q (List.mem_cons_of_mem _ hq)⟩

theorem acimaAbs_push (m : Int) (c : Char) (l : List Peca) (n : Int) (h : AcimaAbs m l n) :
    AcimaAbs m (l ++ [⟨c, n⟩]) (n + 1) := by
  refine ⟨by have := h.1; omega, fun q hq => ?_⟩
  rcases List.mem_append.mp hq with hq | hq
  · exact h.2 q hq
  · simp only [List.mem_singleton] at hq
    rw [hq]
    exact h.1

theorem acimaAbs_gen (m : Int) (l : List Peca) (n : Int) (h : AcimaAbs m l n) :
    AcimaAbs m l (n + 1) :=
  ⟨by have := h.1; omega, h.2⟩

/-- A display of content `l` lists only ids above `m` when all ids of `l` are above `m`. -/
theorem evAcima_exibicao (m : Int) (l : List Peca) (n : Int) (es : List Entrada)
    (hes : es.map Entrada.peca = l) (h : AcimaAbs m l n) :
    EvAcima m [Evento.exibicao es] := by
  intro es1 hmem e he
  simp only [List.mem_singleton, Evento.exibicao.injEq] at hmem
  subst hmem
  apply h.2
  rw [← hes]
  exact List.mem_map_of_mem _ he

/-- A call `exibirFila()` in `main`, under the invariant: it lists the logical content
and changes only the printed text. -/
theorem exibirFilaEv_ok (s : Estado) (hinv : Inv s) :
    ∃ es txt, exibirFilaEv s = some ([Evento.exibicao es], { s with saida := s.saida ++ txt }) ∧
      es.map Entrada.peca = seqLogica s := by
  obtain ⟨es, hes, hp⟩ := exibirEntradas_pecas s hinv
  obtain ⟨txt, ht⟩ := exibirFila_eq s hinv
  exact ⟨es, txt, by simp only [exibirFilaEv, hes, ht], hp⟩

theorem exibirFilaEv_campos (s : Estado) (hinv : Inv s) :
    ∃ es s1, exibirFilaEv s = some ([Evento.exibicao es], s1) ∧
      es.map Entrada.peca = seqLogica s ∧ Inv s1 ∧ seqLogica s1 = seqLogica s ∧
      s1.idProximaPeca = s.idProximaPeca := by
  obtain ⟨es, txt, h, hes⟩ := exibirFilaEv_ok s hinv
  exact ⟨es, _, h, hes, hinv, rfl, rfl⟩

theorem desenfileirar_ok (s : Estado) (hinv : Inv s) (h : 0 < s.contadorPecas) :
    ∃ p s1, desenfileirar s = some (p, s1) ∧ Inv s1 ∧ seqLogica s = p :: seqLogica s1 ∧
      s1.idProximaPeca = s.idProximaPeca :=
  ⟨_, _, desenfileirar_eq s hinv h, inv_desenfileirar s _ _ hinv (desenfileirar_eq s hinv h),
    seqLogica_desenfileirar s _ _ hinv h (desenfileirar_eq s hinv h), rfl⟩

theorem desenfileirar_vazia_ok (s : Estado) (hinv : Inv s) (h : s.contadorPecas = 0) :
    ∃ s1, desenfileirar s = some (pecaErro, s1) ∧ Inv s1 ∧ seqLogica s1 = seqLogica s ∧
      s1.idProximaPeca = s.idProximaPeca :=
  ⟨_, desenfileirar_vazia s h, hinv, rfl, rfl⟩

theorem enfileirar_cheia_ok (p : Peca) (s : Estado) (hinv : Inv s)
    (h : s.contadorPecas = TAMANHO_FILA) :
    ∃ s1, enfileirar p s = some s1 ∧ Inv s1 ∧ seqLogica s1 = seqLogica s ∧
      s1.idProximaPeca = s.idProximaPeca :=
  ⟨_, enfileirar_cheia p s h, hinv, rfl, rfl⟩

theorem pairwise_jogada_exibicao (p : Peca) (l : List Peca) (n : Int) (es : List Entrada)
    (hes : es.map Entrada.peca = l) (h : AcimaAbs p.id l n) :
    [Evento.jogada p, Evento.exibicao es].Pairwise NaoReaparece := by
  rw [List.pairwise_pair]
  intro p1 es1 hp1 hes1 e he
  simp only [Evento.jogada.injEq] at hp1
  simp only [Evento.exibicao.injEq] at hes1
  subst hp1 hes1
  have : p.id < e.peca.id := by
    apply h.2
    rw [← hes]
    exact List.mem_map_of_mem _ he
  omega

theorem evAcima_jogada_exibicao (m : Int) (p : Peca) (l : List Peca) (n : Int)
    (es : List Entrada) (hes : es.map Entrada.peca = l) (h : AcimaAbs m l n) :
    EvAcima m [Evento.jogada p, Evento.exibicao es] := by
  intro es1 hmem
  have h1 : es1 = es := by simpa using hmem
  subst h1
  exact evAcima_exibicao m l n es1 hes h es1 (List.mem_singleton.mpr rfl)

theorem jogada_mem_par (p p0 : Peca) (es : List Entrada) :
    Evento.jogada p ∈ [Evento.jogada p0, Evento.exibicao es] ↔ p = p0 := by
  simp

theorem jogada_nao_mem (p : Peca) (es : List Entrada) :
    Evento.jogada p ∉ [Evento.exibicao es] := by
  simp

/-- Option 1 of the menu: play the front piece. -/
theorem acao_jogar (r : Nat) (s : Estado) (hinv : Inv s) (hord : IdsOrdenados s) :
    ∃ ev s1, executarAcao 1 r s = some (ev, s1) ∧ PassoOK 0 s ev s1 := by
  by_cases hc : s.contadorPecas = 0
  · obtain ⟨s1, hd, hinv1, hseq1, hid1⟩ := desenfileirar_vazia_ok s hinv hc
    obtain ⟨es, s2, hev, hes, hinv2, hseq2, hid2⟩ := exibirFilaEv_campos s1 hinv1
    have hord2 : IdsOrdenados s2 := by
      unfold IdsOrdenados; rw [hseq2, hseq1, hid2, hid1]; exact hord
    have hac : Acima pecaErro.id s2 := by
      unfold Acima; rw [hseq2, hseq1, hid2, hid1]; exact ordAbs_acima _ _ hord
    refine ⟨[Evento.jogada pecaErro, Evento.exibicao es], s2,
      by simp only [executarAcao, if_true, hd, hev], hinv2, hord2,
      by rw [hid2, hid1, add_zero], ?_, ?_, ?_⟩
    · apply pairwise_jogada_exibicao pecaErro (seqLogica s1) s2.idProximaPeca es hes
      unfold Acima at hac; rw [hseq2] at hac; exact hac
    · intro m hm
      have hm2 : Acima m s2 := by
        unfold Acima; rw [hseq2, hseq1, hid2, hid1]; exact hm
      refine ⟨hm2, ?_⟩
      exact evAcima_jogada_exibicao m pecaErro (seqLogica s1) s2.idProximaPeca es hes
        (by unfold Acima at hm2; rw [hseq2] at hm2; exact hm2)
    · intro p hp
      rw [jogada_mem_par] at hp
      subst hp
      exact hac
  · have hpos : 0 < s.contadorPecas := lt_of_le_of_ne hinv.2.2.2.2.1 (Ne.symm hc)
    obtain ⟨p0, s1, hd, hinv1, hseq1, hid1⟩ := desenfileirar_ok s hinv hpos
    obtain ⟨es, s2, hev, hes, hinv2, hseq2, hid2⟩ := exibirFilaEv_campos s1 hinv1
    have hord0 : OrdAbs (p0 :: seqLogica s1) s.idProximaPeca := by
      rw [← hseq1]; exact hord
    obtain ⟨hord1, hac1⟩ := ordAbs_pop _ _ _ hord0
    have hord2 : IdsOrdenados s2 := by
      unfold IdsOrdenados; rw [hseq2, hid2, hid1]; exact hord1
    have hac : Acima p0.id s2 := by
      unfold Acima; rw [hseq2, hid2, hid1]; exact hac1
    refine ⟨[Evento.jogada p0, Evento.exibicao es], s2,
      by simp only [executarAcao, if_true, hd, hev], hinv2, hord2,
      by rw [hid2, hid1, add_zero], ?_, ?_, ?_⟩
    · exact pairwise_jogada_exibicao p0 (seqLogica s1) s.idProximaPeca es hes hac1
    · intro m hm
      have hm1 : AcimaAbs m (seqLogica s1) s.idProximaPeca := by
        apply acimaAbs_pop m p0
        rw [← hseq1]; exact hm
      have hm2 : Acima m s2 := by
        unfold Acima; rw [hseq2, hid2, hid1]; exact hm1
      refine ⟨hm2, ?_⟩
      exact evAcima_jogada_exibicao m p0 (seqLogica s1) s.idProximaPeca es hes hm1
    · intro p hp
      rw [jogada_mem_par] at hp
      subst hp
      exact hac

/-- A step that only displays the queue of a state with the same content. -/
theorem passo_exibir (s s1 s2 : Estado) (es : List Entrada) (hinv2 : Inv s2)
    (hord : IdsOrdenados s) (hes : es.map Entrada.peca = seqLogica s1)
    (hseq1 : seqLogica s1 = seqLogica s) (hseq2 : seqLogica s2 = seqLogica s)
    (hid2 : s2.idProximaPeca = s.idProximaPeca) :
    PassoOK 0 s [Evento.exibicao es] s2 := by
  refine ⟨hinv2, ?_, by rw [hid2, add_zero], List.pairwise_singleton _ _, ?_, ?_⟩
  · unfold IdsOrdenados; rw [hseq2, hid2]; exact hord
  · intro m hm
    refine ⟨by unfold Acima; rw [hseq2, hid2]; exact hm, ?_⟩
    exact evAcima_exibicao m (seqLogica s1) s.idProximaPeca es hes (by rw [hseq1]; exact hm)
  · intro p hp
    exact absurd hp (jogada_nao_mem p es)

/-- Option 2 of the menu: generate a piece and enqueue it. -/
theorem acao_inserir (r : Nat) (s : Estado) (hinv : Inv s) (hord : IdsOrdenados s)
    (hmax : s.idProximaPeca + 1 < 2 ^ 31) :
    ∃ ev s1, executarAcao 2 r s = some (ev, s1) ∧ PassoOK 1 s ev s1 := by
  have h0 : 0 ≤ s.idProximaPeca := hord.1
  have hw : wrapInt (s.idProximaPeca + 1) = s.idProximaPeca + 1 :=
    wrapInt_eq _ (by omega) (by omega)
  have hg : gerarPeca r s = ({ nome := nomeGerado r, id := s.idProximaPeca },
      { s with idProximaPeca := s.idProximaPeca + 1 }) := by rw [gerarPeca_eq, hw]
  have hinvg : Inv { s with idProximaPeca := s.idProximaPeca + 1 } := hinv
  have hseqg : seqLogica { s with idProximaPeca := s.idProximaPeca + 1 } = seqLogica s := rfl
  by_cases hc : s.contadorPecas = TAMANHO_FILA
  · obtain ⟨s1, he, hinv1, hseq1, hid1⟩ :=
      enfileirar_cheia_ok { nome := nomeGerado r, id := s.idProximaPeca } _ hinvg hc
    obtain ⟨es, s2, hev, hes, hinv2, hseq2, hid2⟩ := exibirFilaEv_campos s1 hinv1
    rw [hseqg] at hseq1
    simp only [] at hid1
    refine ⟨[Evento.exibicao es], s2, ?_, hinv2, ?_, by rw [hid2, hid1],
      List.pairwise_singleton _ _, ?_, ?_⟩
    · simp only [executarAcao, hg, he, hev]
      simp
    · unfold IdsOrdenados; rw [hseq2, hseq1, hid2, hid1]; exact ordAbs_gen _ _ hord
    · intro m hm
      have hm1 : AcimaAbs m (seqLogica s) (s.idProximaPeca + 1) := acimaAbs_gen _ _ _ hm
      refine ⟨by unfold Acima; rw [hseq2, hseq1, hid2, hid1]; exact hm1, ?_⟩
      exact evAcima_exibicao m (seqLogica s1) (s.idProximaPeca + 1) es hes
        (by rw [hseq1]; exact hm1)
    · intro p hp
      exact absurd hp (jogada_nao_mem p es)
  · have hlt : s.contadorPecas < TAMANHO_FILA := lt_of_le_of_ne hinv.2.2.2.2.2.1 hc
    obtain ⟨s1, he, hinv1, hseq1, _, hid1, _⟩ :=
      enfileirar_ok { nome := nomeGerado r, id := s.idProximaPeca } _ hinvg hlt
    obtain ⟨es, s2, hev, hes, hinv2, hseq2, hid2⟩ := exibirFilaEv_campos s1 hinv1
    rw [hseqg] at hseq1
    simp only [] at hid1
    refine ⟨[Evento.exibicao es], s2, ?_, hinv2, ?_, by rw [hid2, hid1],
      List.pairwise_singleton _ _, ?_, ?_⟩
    · simp only [executarAcao, hg, he, hev]
      simp
    · unfold IdsOrdenados; rw [hseq2, hseq1, hid2, hid1]; exact ordAbs_push _ _ _ hord
    · intro m hm
      have hm1 : AcimaAbs m (seqLogica s1) (s.idProximaPeca + 1) := by
        rw [hseq1]; exact acimaAbs_push _ _ _ _ hm
      refine ⟨by unfold Acima; rw [hseq2, hid2, hid1]; exact hm1, ?_⟩
      exact evAcima_exibicao m (seqLogica s1) (s.idProximaPeca + 1) es hes hm1
    · intro p hp
      exact absurd hp (jogada_nao_mem p es)

/-- Any other option of the menu: `0` prints the farewell, the rest report the invalid
option and display the queue. -/
theorem acao_outra (escolha : Int) (r : Nat) (s : Estado) (hinv : Inv s)
    (hord : IdsOrdenados s) (h1 : escolha ≠ 1) (h2 : escolha ≠ 2) :
    ∃ ev s1, executarAcao escolha r s = some (ev, s1) ∧ PassoOK 0 s ev s1 := by
  by_cases h0 : escolha = 0
  · refine ⟨[], { s with saida := s.saida ++
        ["Encerrando simulacao. Obrigado por testar o controle de pecas do Tetris Stack!\n"] },
      by simp only [executarAcao, if_neg h1, if_neg h2, if_pos h0], hinv, hord,
      by simp, List.Pairwise.nil, fun m hm => ⟨hm, ?_⟩, ?_⟩
    · intro es hes
      exact absurd hes (List.not_mem_nil _)
    · intro p hp
      exact absurd hp (List.not_mem_nil _)
  · obtain ⟨es, s2, hev, hes, hinv2, hseq2, hid2⟩ := exibirFilaEv_campos
      { s with saida := s.saida ++ ["Opcao invalida. Por favor, escolha 1, 2 ou 0.\n"] } hinv
    exact ⟨[Evento.exibicao es], s2,
      by simp only [executarAcao, if_neg h1, if_neg h2, if_neg h0, hev],
      passo_exibir s _ s2 es hinv2 hord hes rfl hseq2 hid2⟩

/-- One pass of the loop of `main` returns and keeps the ids ordered, provided the id
counter does not overflow. -/
theorem iteracao_ok (l : Leitura) (r : Nat) (s : Estado) (hinv : Inv s)
    (hord : IdsOrdenados s) (hmax : s.idProximaPeca + geradasPor l < 2 ^ 31)
    (hl : l ≠ Leitura.fimDeEntrada) :
    ∃ ev s1, iteracao l r s = some (Passo.completo (valorLido l) ev s1) ∧
      PassoOK (geradasPor l) s ev s1 := by
  cases l with
  | fimDeEntrada => exact absurd rfl hl
  | naoNumerica =>
    refine ⟨[], { exibirMenu s with saida := (exibirMenu s).saida ++
        ["Entrada invalida. Por favor, digite um numero.\n"] }, rfl, hinv, hord, ?_,
      List.Pairwise.nil, fun m hm => ⟨hm, ?_⟩, ?_⟩
    · simp [geradasPor, exibirMenu]
    · intro es hes
      exact absurd hes (List.not_mem_nil _)
    · intro p hp
      exact absurd hp (List.not_mem_nil _)
  | numero n =>
    have hinv1 : Inv { exibirMenu s with saida := (exibirMenu s).saida ++
        ["\n--- Executando Acao ---\n"] } := hinv
    have hord1 : IdsOrdenados { exibirMenu s with saida := (exibirMenu s).saida ++
        ["\n--- Executando Acao ---\n"] } := hord
    have hstep : ∃ ev s1, executarAcao (escolhaLida n) r { exibirMenu s with
        saida := (exibirMenu s).saida ++ ["\n--- Executando Acao ---\n"] } = some (ev, s1) ∧
        PassoOK (geradasPor (Leitura.numero n)) { exibirMenu s with
          saida := (exibirMenu s).saida ++ ["\n--- Executando Acao ---\n"] } ev s1 := by
      by_cases h1 : escolhaLida n = 1
      · have hg : geradasPor (Leitura.numero n) = 0 := by simp [geradasPor, h1]
        rw [hg, h1]
        exact acao_jogar r _ hinv1 hord1
      · by_cases h2 : escolhaLida n = 2
        · have hg : geradasPor (Leitura.numero n) = 1 := by simp [geradasPor, h2]
          rw [hg] at hmax ⊢
          rw [h2]
          exact acao_inserir r _ hinv1 hord1 hmax
        · have hg : geradasPor (Leitura.numero n) = 0 := by simp [geradasPor, h2]
          rw [hg]
          exact acao_outra (escolhaLida n) r _ hinv1 hord1 h1 h2
    obtain ⟨ev, s1, he, hp⟩ := hstep
    exact ⟨ev, s1, by simp only [iteracao, he, valorLido], hp⟩

theorem numInsercoes_cons (l : Leitura) (r : Nat) (resto : List (Leitura × Nat))
    (hl : l ≠ Leitura.fimDeEntrada) :
    (numInsercoes ((l, r) :: resto) : Int) =
      if valorLido l = 0 then 0 else geradasPor l + (numInsercoes resto : Int) := by
  cases l with
  | fimDeEntrada => exact absurd rfl hl
  | naoNumerica => simp [numInsercoes, valorLido, geradasPor]
  | numero n =>
    by_cases h0 : escolhaLida n = 0
    · simp [numInsercoes, valorLido, h0]
    · by_cases h2 : escolhaLida n = 2
      · simp [numInsercoes, valorLido, geradasPor, h2]
        omega
      · simp [numInsercoes, valorLido, geradasPor, h0, h2]

theorem numInsercoes_fim (r : Nat) (resto : List (Leitura × Nat)) :
    numInsercoes ((Leitura.fimDeEntrada, r) :: resto) = 0 := rfl

theorem geradasPor_zero (l : Leitura) (h : valorLido l = 0) : geradasPor l = 0 := by
  cases l with
  | fimDeEntrada => rfl
  | naoNumerica => rfl
  | numero n =>
    simp only [valorLido] at h
    simp [geradasPor, h]

theorem geradasPor_nonneg (l : Leitura) : 0 ≤ geradasPor l := by
  cases l with
  | fimDeEntrada => simp [geradasPor]
  | naoNumerica => simp [geradasPor]
  | numero n => simp only [geradasPor]; split <;> omega

/-- At the end of the input the loop stops in the state of the pass that never returns. -/
theorem laco_fim (r : Nat) (resto : List (Leitura × Nat)) (s : Estado) :
    laco ((Leitura.fimDeEntrada, r) :: resto) s = some ([],
      { exibirMenu s with saida := (exibirMenu s).saida ++
        ["Entrada invalida. Por favor, digite um numero.\n"] }) := rfl

/-- The loop of `main` returns on every finite list of inputs, keeps the ids ordered, and
no display after a removal shows the removed id, provided the id counter does not
overflow. -/
theorem laco_ok (entradas : List (Leitura × Nat)) :
    ∀ s, Inv s → IdsOrdenados s → s.idProximaPeca + (numInsercoes entradas : Int) < 2 ^ 31 →
      ∃ evs s1, laco entradas s = some (evs, s1) ∧ Inv s1 ∧ IdsOrdenados s1 ∧
        s1.idProximaPeca = s.idProximaPeca + (numInsercoes entradas : Int) ∧
        evs.Pairwise NaoReaparece ∧ ∀ m, Acima m s → EvAcima m evs := by
  induction entradas with
  | nil =>
    intro s hinv hord _
    refine ⟨[], s, rfl, hinv, hord, by simp [numInsercoes], List.Pairwise.nil, ?_⟩
    intro m _ es hes
    exact absurd hes (List.not_mem_nil _)
  | cons lr resto ih =>
    obtain ⟨l, r⟩ := lr
    intro s hinv hord hmax
    by_cases hf : l = Leitura.fimDeEntrada
    · subst hf
      refine ⟨[], _, laco_fim r resto s, hinv, hord, by simp [numInsercoes_fim, exibirMenu],
        List.Pairwise.nil, ?_⟩
      intro m _ es hes
      exact absurd hes (List.not_mem_nil _)
    rw [numInsercoes_cons l r resto hf] at hmax ⊢
    by_cases hv : valorLido l = 0
    · rw [if_pos hv] at hmax ⊢
      have hg := geradasPor_zero l hv
      obtain ⟨ev, s1, hit, hinv1, hord1, hid1, hpw, hac, _⟩ :=
        iteracao_ok l r s hinv hord (by rw [hg]; exact hmax) hf
      refine ⟨ev, s1, ?_, hinv1, hord1, by rw [hid1, hg], hpw, fun m hm => (hac m hm).2⟩
      simp only [laco, hit, hv, ne_eq, not_true_eq_false, if_false]
    · rw [if_neg hv] at hmax ⊢
      have hnn : (0 : Int) ≤ (numInsercoes resto : Int) := Int.ofNat_nonneg _
      have hgn : 0 ≤ geradasPor l := geradasPor_nonneg l
      obtain ⟨ev, s1, hit, hinv1, hord1, hid1, hpw, hac, hjog⟩ :=
        iteracao_ok l r s hinv hord (by omega) hf
      obtain ⟨evs, s2, hl, hinv2, hord2, hid2, hpw2, hac2⟩ :=
        ih s1 hinv1 hord1 (by rw [hid1]; omega)
      refine ⟨ev ++ evs, s2, ?_, hinv2, hord2, by rw [hid2, hid1]; omega, ?_, ?_⟩
      · simp only [laco, hit, hl, ne_eq, hv, not_false_eq_true, if_true]
      · rw [List.pairwise_append]
        refine ⟨hpw, hpw2, ?_⟩
        intro x hx y hy p es hxp hyes e he
        subst hxp hyes
        have := hac2 p.id (hjog p hx) es hy e he
        omega
      · intro m hm es hes e he
        rcases List.mem_append.mp hes with h | h
        · exact (hac m hm).2 es h e he
        · exact hac2 m (hac m hm).1 es h e he

/-- The start of `main` returns, with the first five ids stored in order. -/
theorem inicio_ok (rs : Nat → Nat) :
    ∃ es s, inicio rs = some ([Evento.exibicao es], s) ∧ Inv s ∧ IdsOrdenados s ∧
      s.idProximaPeca = 5 := by
  obtain ⟨s0, h0, hinv0, hseq0, _, hid0, _⟩ := inicializarFila_seq rs
  obtain ⟨es, s1, hev, _, hinv1, hseq1, hid1⟩ := exibirFilaEv_campos s0 hinv0
  refine ⟨es, s1, by simp only [inicio, h0, hev], hinv1, ?_, by rw [hid1, hid0]⟩
  unfold IdsOrdenados
  rw [hseq1, hseq0, hid1, hid0]
  refine ⟨by decide, ?_, ?_⟩
  · have hids : ((List.range 5).map
        (fun (j : Nat) => ({ nome := nomeGerado (rs j), id := (j : Int) } : Peca))).map Peca.id =
        [0, 1, 2, 3, 4] := rfl
    rw [hids]
    decide
  · intro q hq
    obtain ⟨j, hj, rfl⟩ := List.mem_map.mp hq
    have := List.mem_range.mp hj
    simp only []
    omega

/-- Under the invariant, the text `exibirFila` prints, in terms of the positions it
lists. -/
theorem exibirFila_texto (s : Estado) (hinv : Inv s) :
    exibirFila s = some { s with saida := s.saida ++
      (["\n--- Estado Atual da Fila de Pecas ---\n"] ++
        (if s.contadorPecas = 0 then ["A fila esta vazia.\n"]
         else ["Fila de Pecas: "] ++
          (((List.range s.contadorPecas.toNat).map
            (fun (k : Nat) => entradaDe s (s.frente + (k : Int)))).map fmtEntrada).flatten ++
          ["\nTotal de Pecas: " ++ toString s.contadorPecas ++ " / " ++
              toString ((TAMANHO_FILA : Nat) : Int) ++ "\n",
           "--------------------------------------\n"])) } := by
  unfold exibirFila
  by_cases hv : s.contadorPecas = 0
  · have hb : isFilaVazia s = true := by simp [isFilaVazia, hv]
    simp only [hb, if_true, if_pos hv, List.append_assoc]
  · have hb : isFilaVazia s = false := by simp [isFilaVazia, hv]
    have hl := exibirLaco_eq s s.contadorPecas.toNat s.frente hinv.1 hinv.2.1
    simp only [hb, hl, if_neg hv, List.append_assoc, Bool.false_eq_true, if_false]

/-- Reading the array at a position taken circularly, with the `%` of C. -/
theorem lerFila_slot (a : Fin TAMANHO_FILA → Peca) (j : Int) (h0 : 0 ≤ j) :
    lerFila a (Int.tmod j TAMANHO_FILA) = some (a (slot j)) := by
  have htm : Int.tmod j TAMANHO_FILA = j % (TAMANHO_FILA : Int) :=
    Int.tmod_eq_emod h0 (by decide)
  have hr : 0 ≤ j % (TAMANHO_FILA : Int) ∧ j % (TAMANHO_FILA : Int) < (TAMANHO_FILA : Int) := by
    simp only [TAMANHO_FILA, Nat.cast_ofNat]
    omega
  rw [htm]
  unfold lerFila
  rw [dif_pos hr]
  rfl

/-- The indices of the positions listed from `frente` are pairwise distinct, as at most
`TAMANHO_FILA` positions are listed. -/
theorem indices_nodup (f : Int) (n : Nat) (hn : n ≤ TAMANHO_FILA) :
    ((List.range n).map (fun (k : Nat) => (f + (k : Int)) % (TAMANHO_FILA : Int))).Nodup := by
  apply List.Nodup.map_on _ (List.nodup_range n)
  intro x hx y hy hxy
  have hx1 := List.mem_range.mp hx
  have hy1 := List.mem_range.mp hy
  simp only [TAMANHO_FILA, Nat.cast_ofNat] at hxy hn
  omega

theorem invU_inicial : InvU estadoInicial none :=
  ⟨inv_estadoInicial, fun _ => ⟨rfl, rfl⟩, fun p h => by cases h⟩

theorem slot_emod (j : Int) : slot (j % (TAMANHO_FILA : Int)) = slot j := by
  apply Fin.ext
  simp only [slot, TAMANHO_FILA, Nat.cast_ofNat]
  congr 1
  omega

/-- Every call keeps the invariant on the piece most recently enqueued. -/
theorem chamar_invU (c : Chamada) (s : Estado) (u : Option Peca) (h : InvU s u) :
    ∃ s1, chamar c s = some s1 ∧ InvU s1 (ultimaApos c s u) := by
  obtain ⟨hinv, hn, hsome⟩ := h
  cases c with
  | enfileirar p =>
    by_cases hc : s.contadorPecas = TAMANHO_FILA
    · have hb : isFilaCheia s = true := by simp [isFilaCheia, hc]
      refine ⟨{ s with saida := s.saida ++ [msgFilaCheia] }, enfileirar_cheia p s hc, hinv, ?_, ?_⟩
      · simp only [ultimaApos, hb, if_true]; exact hn
      · simp only [ultimaApos, hb, if_true]; exact hsome
    · have hb : isFilaCheia s = false := by
        simp only [isFilaCheia, beq_eq_false_iff_ne, ne_eq]
        exact hc
      have hlt : s.contadorPecas < TAMANHO_FILA := lt_of_le_of_ne hinv.2.2.2.2.2.1 hc
      have he := enfileirar_eq p s hinv hlt
      refine ⟨_, he, inv_enfileirar p s _ hinv he, ?_, ?_⟩
      · simp only [ultimaApos, hb]
        intro h
        simp at h
      · simp only [ultimaApos, hb]
        intro q hq
        simp only [Bool.false_eq_true, if_false, Option.some.injEq] at hq
        subst hq
        have hc0 : 0 ≤ s.contadorPecas := hinv.2.2.2.2.1
        have hcn : ((s.contadorPecas.toNat : Nat) : Int) = s.contadorPecas := by omega
        refine ⟨?_, ?_⟩
        · simp only [TAMANHO_FILA, Nat.cast_ofNat]
          omega
        · have hidx : indiceLogico s s.contadorPecas.toNat =
              slot (s.frente + s.contadorPecas) := by
            simp only [indiceLogico, slot, hcn]
          show Function.update s.filaPecas (indiceLogico s s.contadorPecas.toNat) p
            (slot ((s.frente + s.contadorPecas) % (TAMANHO_FILA : Int))) = p
          rw [slot_emod, hidx]
          exact Function.update_same _ _ _
  | desenfileirar =>
    by_cases hc : s.contadorPecas = 0
    · refine ⟨{ s with saida := s.saida ++ [msgFilaVazia] }, ?_, hinv, hn, hsome⟩
      simp only [chamar, desenfileirar_vazia s hc, Option.map_some']
    · have hlt : 0 < s.contadorPecas := lt_of_le_of_ne hinv.2.2.2.2.1 (Ne.symm hc)
      have hd := desenfileirar_eq s hinv hlt
      refine ⟨_, by simp only [chamar, hd, Option.map_some'],
        inv_desenfileirar s _ _ hinv hd, ?_, hsome⟩
      intro hu
      exact absurd (hn hu).2 hc
  | gerarPeca r => exact ⟨_, rfl, hinv, hn, hsome⟩
  | exibirFila =>
    obtain ⟨txt, ht⟩ := exibirFila_eq s hinv
    exact ⟨_, ht, hinv, hn, hsome⟩

/-- The run that tracks the last enqueued piece returns, keeps the invariant, and passes
through the same states as `executar`. -/
theorem executarComUltima_inv (cs : List Chamada) :
    ∀ s u, InvU s u → ∃ s1 u1, executarComUltima cs s u = some (s1, u1) ∧ InvU s1 u1 ∧
      executar cs s = some s1 := by
  induction cs with
  | nil => intro s u h; exact ⟨s, u, rfl, h, rfl⟩
  | cons c cs ih =>
    intro s u h
    obtain ⟨s1, h1, hinv1⟩ := chamar_invU c s u h
    obtain ⟨s2, u2, h2, hinv2, he2⟩ := ih s1 _ hinv1
    exact ⟨s2, u2, by simp only [executarComUltima, h1, h2], hinv2,
      by simp only [executar, h1, he2]⟩

/-- In a non-empty queue satisfying the tracked invariant, the display marks the first
entry as front and the last as tail, and the last entry is the piece most recently
enqueued. -/
theorem marcadores_invU (s : Estado) (u : Option Peca) (h : InvU s u)
    (hpos : 0 < s.contadorPecas) :
    ∃ es p, exibirEntradas s = some es ∧ (es.length : Int) = s.contadorPecas ∧
      (∀ (k : Nat) (hk : k < es.length),
        ((es.get ⟨k, hk⟩).marcaFrente = true ↔ k = 0) ∧
        ((es.get ⟨k, hk⟩).marcaTraseira = true ↔ k + 1 = es.length)) ∧
      u = some p ∧ es.getLast?.map Entrada.peca = some p := by
  obtain ⟨hinv, hn, hsome⟩ := h
  obtain ⟨p, hp⟩ : ∃ p, u = some p := by
    cases u with
    | none => exact absurd (hn rfl).2 (by omega)
    | some p => exact ⟨p, rfl⟩
  obtain ⟨ht0, htp⟩ := hsome p hp
  obtain ⟨h1, h2, h3, h4, h5, h6, h7⟩ := hinv
  simp only [TAMANHO_FILA, Nat.cast_ofNat] at h2 h4 h6 h7
  obtain ⟨n, hn1⟩ : ∃ n, s.contadorPecas.toNat = n + 1 :=
    ⟨s.contadorPecas.toNat - 1, by omega⟩
  refine ⟨_, p, exibirEntradas_eq s ⟨h1, h2, h3, h4, h5, h6, h7⟩, ?_, ?_, hp, ?_⟩
  · simp only [List.length_map, List.length_range]
    omega
  · intro k hk
    have hk1 : k < s.contadorPecas.toNat := by
      simpa only [List.length_map, List.length_range] using hk
    have hidx : ((List.range s.contadorPecas.toNat).map
        (fun (k : Nat) => entradaDe s (s.frente + (k : Int)))).get ⟨k, hk⟩ =
        entradaDe s (s.frente + (k : Int)) := by
      simp only [List.get_eq_getElem, List.getElem_map, List.getElem_range]
    rw [hidx]
    simp only [entradaDe, beq_iff_eq, List.length_map, List.length_range, TAMANHO_FILA,
      Nat.cast_ofNat]
    constructor
    · constructor
      · intro h; omega
      · intro h; subst h; simp only [Nat.cast_zero, add_zero]; omega
    · constructor
      · intro h; omega
      · intro h; omega
  · rw [List.getLast?_map, List.getLast?_range, hn1]
    simp only [Nat.add_one_ne_zero, if_false, Option.map_some', Nat.add_sub_cancel,
      entradaDe, Option.some.injEq]
    rw [← htp]
    congr 1
    apply Fin.ext
    simp only [slot, TAMANHO_FILA, Nat.cast_ofNat]
    congr 1
    omega

/-- In a non-empty queue satisfying the tracked invariant, the text `exibirFila` prints:
the marker `(Frente)` follows the first piece only and `(Traseira)` the last piece only. -/
theorem texto_marcadores (s : Estado) (u : Option Peca) (h : InvU s u)
    (hpos : 0 < s.contadorPecas) :
    exibirFila s = some { s with saida := s.saida ++
      (["\n--- Estado Atual da Fila de Pecas ---\n", "Fila de Pecas: "] ++
        ((List.range s.contadorPecas.toNat).map (fun (k : Nat) =>
          ["[" ++ String.singleton (s.filaPecas (indiceLogico s k)).nome ++ " " ++
            toString (s.filaPecas (indiceLogico s k)).id ++ "]"] ++
          (if k = 0 then ["(Frente)"] else []) ++
          (if k + 1 = s.contadorPecas.toNat then ["(Traseira)"] else []) ++ [" "])).flatten ++
        ["\nTotal de Pecas: " ++ toString s.contadorPecas ++ " / " ++
            toString ((TAMANHO_FILA : Nat) : Int) ++ "\n",
         "--------------------------------------\n"]) } := by
  obtain ⟨hinv, hn, hsome⟩ := h
  obtain ⟨p, hp⟩ : ∃ p, u = some p := by
    cases u with
    | none => exact absurd (hn rfl).2 (by omega)
    | some p => exact ⟨p, rfl⟩
  obtain ⟨ht0, _⟩ := hsome p hp
  have hmap : ((List.range s.contadorPecas.toNat).map
      (fun (k : Nat) => entradaDe s (s.frente + (k : Int)))).map fmtEntrada =
      (List.range s.contadorPecas.toNat).map (fun (k : Nat) =>
        ["[" ++ String.singleton (s.filaPecas (indiceLogico s k)).nome ++ " " ++
          toString (s.filaPecas (indiceLogico s k)).id ++ "]"] ++
        (if k = 0 then ["(Frente)"] else []) ++
        (if k + 1 = s.contadorPecas.toNat then ["(Traseira)"] else []) ++ [" "]) := by
    rw [List.map_map]
    apply List.map_congr_left
    intro k hk
    have hk1 := List.mem_range.mp hk
    obtain ⟨h1, h2, h3, h4, h5, h6, h7⟩ := hinv
    simp only [TAMANHO_FILA, Nat.cast_ofNat] at h2 h4 h6 h7
    have hf : ((s.frente + (k : Int)) % ((TAMANHO_FILA : Nat) : Int) == s.frente) =
        decide (k = 0) := by
      simp only [TAMANHO_FILA, Nat.cast_ofNat]
      by_cases hk0 : k = 0
      · subst hk0
        simp only [Nat.cast_zero, add_zero, decide_True, beq_iff_eq]
        omega
      · simp only [hk0, decide_False, beq_eq_false_iff_ne, ne_eq]
        omega
    have ht : ((s.frente + (k : Int)) % ((TAMANHO_FILA : Nat) : Int) == s.traseira) =
        decide (k + 1 = s.contadorPecas.toNat) := by
      simp only [TAMANHO_FILA, Nat.cast_ofNat]
      by_cases hkn : k + 1 = s.contadorPecas.toNat
      · simp only [hkn, decide_True, beq_iff_eq]
        omega
      · simp only [hkn, decide_False, beq_eq_false_iff_ne, ne_eq]
        omega
    have hpc : (entradaDe s (s.frente + (k : Int))).peca = s.filaPecas (indiceLogico s k) := rfl
    simp only [Function.comp, fmtEntrada, fmtPeca, hpc]
    simp only [entradaDe, hf, ht, decide_eq_true_eq]
  rw [exibirFila_texto s hinv, if_neg (ne_of_gt hpos), hmap]
  rfl

/-- Option 1 of the menu in any state satisfying the invariant: the content loses its
front piece, or was empty and stays so; the next id is unchanged. -/
theorem acao_jogar_abs (r : Nat) (s : Estado) (hinv : Inv s) :
    ∃ ev s1, executarAcao 1 r s = some (ev, s1) ∧ Inv s1 ∧
      s1.idProximaPeca = s.idProximaPeca ∧
      ((seqLogica s1 = seqLogica s) ∨ (∃ p, seqLogica s = p :: seqLogica s1)) := by
  by_cases hc : s.contadorPecas = 0
  · obtain ⟨s1, hd, hinv1, hseq1, hid1⟩ := desenfileirar_vazia_ok s hinv hc
    obtain ⟨es, s2, hev, _, hinv2, hseq2, hid2⟩ := exibirFilaEv_campos s1 hinv1
    exact ⟨[Evento.jogada pecaErro, Evento.exibicao es], s2,
      by simp only [executarAcao, if_true, hd, hev], hinv2, by rw [hid2, hid1],
      Or.inl (by rw [hseq2, hseq1])⟩
  · have hpos : 0 < s.contadorPecas := lt_of_le_of_ne hinv.2.2.2.2.1 (Ne.symm hc)
    obtain ⟨p0, s1, hd, hinv1, hseq1, hid1⟩ := desenfileirar_ok s hinv hpos
    obtain ⟨es, s2, hev, _, hinv2, hseq2, hid2⟩ := exibirFilaEv_campos s1 hinv1
    exact ⟨[Evento.jogada p0, Evento.exibicao es], s2,
      by simp only [executarAcao, if_true, hd, hev], hinv2, by rw [hid2, hid1],
      Or.inr ⟨p0, by rw [hseq2]; exact hseq1⟩⟩

/-- Option 2 of the menu in any state satisfying the invariant: the id counter takes the
(wrapped) next value whether or not the queue accepts the piece; a full queue keeps all
its fields, a queue that is not full gets the generated piece appended. -/
theorem acao_inserir_geral (r : Nat) (s : Estado) (hinv : Inv s) :
    ∃ es s1, executarAcao 2 r s = some ([Evento.exibicao es], s1) ∧ Inv s1 ∧
      s1.idProximaPeca = wrapInt (s.idProximaPeca + 1) ∧
      (s.contadorPecas = TAMANHO_FILA →
        s1.filaPecas = s.filaPecas ∧ s1.frente = s.frente ∧ s1.traseira = s.traseira ∧
        s1.contadorPecas = s.contadorPecas ∧ seqLogica s1 = seqLogica s) ∧
      (s.contadorPecas ≠ TAMANHO_FILA →
        seqLogica s1 = seqLogica s ++ [⟨nomeGerado r, s.idProximaPeca⟩] ∧
        s1.contadorPecas = s.contadorPecas + 1) := by
  have hinvg : Inv { s with idProximaPeca := wrapInt (s.idProximaPeca + 1) } := hinv
  by_cases hc : s.contadorPecas = TAMANHO_FILA
  · have he := enfileirar_cheia { nome := nomeGerado r, id := s.idProximaPeca }
      { s with idProximaPeca := wrapInt (s.idProximaPeca + 1) } hc
    obtain ⟨es, txt, hev, _⟩ := exibirFilaEv_ok
      { s with idProximaPeca := wrapInt (s.idProximaPeca + 1),
               saida := s.saida ++ [msgFilaCheia] } hinv
    refine ⟨es,
      { s with idProximaPeca := wrapInt (s.idProximaPeca + 1),
               saida := s.saida ++ [msgFilaCheia] ++ txt }, ?_, hinv, rfl,
      fun _ => ⟨rfl, rfl, rfl, rfl, rfl⟩, fun h => absurd hc h⟩
    simp only [executarAcao, gerarPeca_eq, he]
    simp only [show ((2 : Int) = 1) = False from by decide, if_false, if_true]
    exact hev
  · have hlt : s.contadorPecas < TAMANHO_FILA := lt_of_le_of_ne hinv.2.2.2.2.2.1 hc
    obtain ⟨s1, he, hinv1, hseq1, hc1, hid1, _⟩ :=
      enfileirar_ok { nome := nomeGerado r, id := s.idProximaPeca } _ hinvg hlt
    obtain ⟨es, s2, hev, _, hinv2, hseq2, hid2⟩ := exibirFilaEv_campos s1 hinv1
    refine ⟨es, s2, ?_, hinv2, by rw [hid2, hid1], fun h => absurd h hc, fun _ => ⟨?_, ?_⟩⟩
    · simp only [executarAcao, gerarPeca_eq, he]
      simp only [show ((2 : Int) = 1) = False from by decide, if_false, if_true]
      exact hev
    · rw [hseq2, hseq1]
      rfl
    · obtain ⟨es1, txt, hev1, _⟩ := exibirFilaEv_ok s1 hinv1
      rw [hev] at hev1
      cases hev1
      exact hc1

/-- Any option other than 1 and 2 in any state satisfying the invariant: the content and
the next id are unchanged. -/
theorem acao_outra_abs (escolha : Int) (r : Nat) (s : Estado) (hinv : Inv s)
    (h1 : escolha ≠ 1) (h2 : escolha ≠ 2) :
    ∃ ev s1, executarAcao escolha r s = some (ev, s1) ∧ Inv s1 ∧
      s1.idProximaPeca = s.idProximaPeca ∧ seqLogica s1 = seqLogica s := by
  by_cases h0 : escolha = 0
  · exact ⟨[], { s with saida := s.saida ++
        ["Encerrando simulacao. Obrigado por testar o controle de pecas do Tetris Stack!\n"] },
      by simp only [executarAcao, if_neg h1, if_neg h2, if_pos h0], hinv, rfl, rfl⟩
  · obtain ⟨es, s2, hev, _, hinv2, hseq2, hid2⟩ := exibirFilaEv_campos
      { s with saida := s.saida ++ ["Opcao invalida. Por favor, escolha 1, 2 ou 0.\n"] } hinv
    exact ⟨[Evento.exibicao es], s2,
      by simp only [executarAcao, if_neg h1, if_neg h2, if_neg h0, hev], hinv2, hid2, hseq2⟩

/-- The `switch` of `main` in any state satisfying the invariant, as long as the id
counter stays in the range of an `int`: its effect on the content and the next id. -/
theorem acao_abs (escolha : Int) (r : Nat) (s : Estado) (hinv : Inv s)
    (hlo : -2 ^ 31 ≤ s.idProximaPeca)
    (hmax : s.idProximaPeca + (if escolha = 2 then 1 else 0) < 2 ^ 31) :
    ∃ ev s1, executarAcao escolha r s = some (ev, s1) ∧ Inv s1 ∧
      s1.idProximaPeca = s.idProximaPeca + (if escolha = 2 then 1 else 0) ∧
      PassoAbs (seqLogica s) s.idProximaPeca (seqLogica s1) s1.idProximaPeca := by
  by_cases h1 : escolha = 1
  · subst h1
    obtain ⟨ev, s1, he, hinv2, hid, hseq⟩ := acao_jogar_abs r s hinv
    refine ⟨ev, s1, he, hinv2, ?_, ?_⟩
    · rw [hid]; simp
    · rw [hid]
      rcases hseq with hseq | ⟨p, hseq⟩
      · exact Or.inl ⟨hseq, rfl⟩
      · exact Or.inr (Or.inl ⟨p, hseq, rfl⟩)
  · by_cases h2 : escolha = 2
    · subst h2
      obtain ⟨es, s1, he, hinv2, hid, hcheia, hlivre⟩ := acao_inserir_geral r s hinv
      simp only [if_true] at hmax ⊢
      have hw : wrapInt (s.idProximaPeca + 1) = s.idProximaPeca + 1 :=
        wrapInt_eq _ (by omega) (by omega)
      have hid1 : s1.idProximaPeca = s.idProximaPeca + 1 := by rw [hid]; exact hw
      refine ⟨[Evento.exibicao es], s1, he, hinv2, hid1, ?_⟩
      rw [hid1]
      by_cases hc : s.contadorPecas = TAMANHO_FILA
      · refine Or.inr (Or.inr (Or.inl ⟨(hcheia hc).2.2.2.2, ?_, rfl⟩))
        rw [seqLogica_length, hc]
        rfl
      · exact Or.inr (Or.inr (Or.inr ⟨r, (hlivre hc).1, rfl⟩))
    · obtain ⟨ev, s1, he, hinv2, hid, hseq⟩ := acao_outra_abs escolha r s hinv h1 h2
      refine ⟨ev, s1, he, hinv2, ?_, ?_⟩
      · rw [hid]; simp [h2]
      · rw [hid]
        exact Or.inl ⟨hseq, rfl⟩

/-- One pass of the loop of `main` on an input other than the end of the input, in any
state satisfying the invariant, as long as the id counter stays in the range of an
`int`: its effect on the content and the next id. -/
theorem iteracao_abs (l : Leitura) (r : Nat) (s : Estado) (hinv : Inv s)
    (hlo : -2 ^ 31 ≤ s.idProximaPeca) (hmax : s.idProximaPeca + geradasPor l < 2 ^ 31)
    (hl : l ≠ Leitura.fimDeEntrada) :
    ∃ ev s1, iteracao l r s = some (Passo.completo (valorLido l) ev s1) ∧ Inv s1 ∧
      s1.idProximaPeca = s.idProximaPeca + geradasPor l ∧
      PassoAbs (seqLogica s) s.idProximaPeca (seqLogica s1) s1.idProximaPeca := by
  cases l with
  | fimDeEntrada => exact absurd rfl hl
  | naoNumerica =>
    exact ⟨[], { exibirMenu s with saida := (exibirMenu s).saida ++
        ["Entrada invalida. Por favor, digite um numero.\n"] }, rfl, hinv,
      by simp [geradasPor, exibirMenu], Or.inl ⟨rfl, rfl⟩⟩
  | numero n =>
    obtain ⟨ev, s1, he, hinv2, hid, hp⟩ := acao_abs (escolhaLida n) r
      { exibirMenu s with saida := (exibirMenu s).saida ++ ["\n--- Executando Acao ---\n"] }
      hinv hlo hmax
    exact ⟨ev, s1, by simp only [iteracao, he, valorLido], hinv2, hid, hp⟩

/-- Every property of the content and the next id that each pass of the loop keeps holds
after the whole loop, which returns as long as the id counter does not overflow. -/
theorem laco_preserva (J : List Peca → Int → Prop)
    (hJ : ∀ l n l1 n1, 0 ≤ n → J l n → PassoAbs l n l1 n1 → J l1 n1)
    (entradas : List (Leitura × Nat)) :
    ∀ s, Inv s → 0 ≤ s.idProximaPeca →
      s.idProximaPeca + (numInsercoes entradas : Int) < 2 ^ 31 →
      J (seqLogica s) s.idProximaPeca →
      ∃ evs s1, laco entradas s = some (evs, s1) ∧ Inv s1 ∧
        J (seqLogica s1) s1.idProximaPeca ∧
        s1.idProximaPeca = s.idProximaPeca + (numInsercoes entradas : Int) := by
  induction entradas with
  | nil =>
    intro s hinv _ _ hj
    exact ⟨[], s, rfl, hinv, hj, by simp [numInsercoes]⟩
  | cons lr resto ih =>
    obtain ⟨l, r⟩ := lr
    intro s hinv h0 hmax hj
    by_cases hf : l = Leitura.fimDeEntrada
    · subst hf
      exact ⟨[], _, laco_fim r resto s, hinv, hj, by simp [numInsercoes_fim, exibirMenu]⟩
    rw [numInsercoes_cons l r resto hf] at hmax ⊢
    have hgn : 0 ≤ geradasPor l := geradasPor_nonneg l
    have hnn : (0 : Int) ≤ (numInsercoes resto : Int) := Int.ofNat_nonneg _
    by_cases hv : valorLido l = 0
    · rw [if_pos hv] at hmax ⊢
      have hg := geradasPor_zero l hv
      obtain ⟨ev, s1, hit, hinv1, hid1, hp⟩ :=
        iteracao_abs l r s hinv (by omega) (by rw [hg]; omega) hf
      refine ⟨ev, s1, ?_, hinv1, hJ _ _ _ _ h0 hj hp, by rw [hid1, hg]⟩
      simp only [laco, hit, hv, ne_eq, not_true_eq_false, if_false]
    · rw [if_neg hv] at hmax ⊢
      obtain ⟨ev, s1, hit, hinv1, hid1, hp⟩ :=
        iteracao_abs l r s hinv (by omega) (by omega) hf
      obtain ⟨evs, s2, hl, hinv2, hj2, hid2⟩ :=
        ih s1 hinv1 (by rw [hid1]; omega) (by rw [hid1]; omega) (hJ _ _ _ _ h0 hj hp)
      refine ⟨ev ++ evs, s2, ?_, hinv2, hj2, by rw [hid2, hid1]; omega⟩
      simp only [laco, hit, hl, ne_eq, hv, not_false_eq_true, if_true]

theorem nomeGerado_mem (r : Nat) : nomeGerado r ∈ tipos :=
  List.get_mem _ _ _

/-- The start of `main` returns, with the first five generated pieces stored in order. -/
theorem inicio_seq (rs : Nat → Nat) :
    ∃ es s, inicio rs = some ([Evento.exibicao es], s) ∧ Inv s ∧
      seqLogica s = (List.range 5).map
        (fun (j : Nat) => ({ nome := nomeGerado (rs j), id := (j : Int) } : Peca)) ∧
      s.idProximaPeca = 5 ∧ s.contadorPecas = 5 := by
  obtain ⟨s0, h0, hinv0, hseq0, hc0, hid0, _⟩ := inicializarFila_seq rs
  obtain ⟨es, txt, hev, _⟩ := exibirFilaEv_ok s0 hinv0
  exact ⟨es, { s0 with saida := s0.saida ++ txt }, by simp only [inicio, h0, hev], hinv0,
    hseq0, hid0, hc0⟩

/-- A typed integer in the range of `int` is stored in `escolha` as it is. -/
theorem escolhaLida_eq (n : Int) (h1 : -2 ^ 31 ≤ n) (h2 : n < 2 ^ 31) : escolhaLida n = n := by
  unfold escolhaLida
  rw [if_neg (by omega), if_neg (by omega)]
  exact wrapInt_eq n h1 h2

theorem escolhaLida_um : escolhaLida 1 = 1 := escolhaLida_eq 1 (by decide) (by decide)

theorem escolhaLida_dois : escolhaLida 2 = 2 := escolhaLida_eq 2 (by decide) (by decide)

theorem numInsercoes_replicate (n r : Nat) :
    numInsercoes (List.replicate n (Leitura.numero 2, r)) = n := by
  induction n with
  | zero => rfl
  | succ n ih =>
    simp only [List.replicate_succ, numInsercoes, ih, escolhaLida_dois]
    simp

/-- Option 2 of the menu as one pass of the loop, in any state satisfying the invariant:
the id counter takes the (wrapped) next value; a full queue keeps all its fields. -/
theorem iteracao_inserir (n : Int) (r : Nat) (s : Estado) (hn : escolhaLida n = 2)
    (hinv : Inv s) :
    ∃ ev s1, iteracao (Leitura.numero n) r s = some (Passo.completo 2 ev s1) ∧ Inv s1 ∧
      s1.idProximaPeca = wrapInt (s.idProximaPeca + 1) ∧
      (s.contadorPecas = TAMANHO_FILA →
        s1.filaPecas = s.filaPecas ∧ s1.frente = s.frente ∧ s1.traseira = s.traseira ∧
        s1.contadorPecas = s.contadorPecas ∧ seqLogica s1 = seqLogica s) ∧
      (s.contadorPecas ≠ TAMANHO_FILA →
        seqLogica s1 = seqLogica s ++ [⟨nomeGerado r, s.idProximaPeca⟩] ∧
        s1.contadorPecas = s.contadorPecas + 1) := by
  have hinv1 : Inv { exibirMenu s with saida := (exibirMenu s).saida ++
      ["\n--- Executando Acao ---\n"] } := hinv
  obtain ⟨es, s1, he, hinv2, hid, hcheia, hlivre⟩ := acao_inserir_geral r _ hinv1
  exact ⟨[Evento.exibicao es], s1, by simp only [iteracao, hn, he], hinv2, hid, hcheia,
    hlivre⟩

/-- An id that is below the next id and not stored stays so for the rest of the loop. -/
theorem laco_ausente (d : Int) (entradas : List (Leitura × Nat)) (s : Estado) (hinv : Inv s)
    (h0 : 0 ≤ s.idProximaPeca)
    (hmax : s.idProximaPeca + (numInsercoes entradas : Int) < 2 ^ 31)
    (hd : d < s.idProximaPeca) (hq : ∀ q ∈ seqLogica s, q.id ≠ d) :
    ∃ evs s1, laco entradas s = some (evs, s1) ∧ ∀ q ∈ seqLogica s1, q.id ≠ d := by
  obtain ⟨evs, s1, hl, _, hj, _⟩ := laco_preserva
    (fun l n => d < n ∧ ∀ q ∈ l, q.id ≠ d)
    (by
      intro l n l1 n1 _ hj hp
      obtain ⟨hdn, hl⟩ := hj
      rcases hp with ⟨h1, h2⟩ | ⟨p, h1, h2⟩ | ⟨h1, _, h2⟩ | ⟨r, h1, h2⟩
      · rw [h1, h2]; exact ⟨hdn, hl⟩
      · rw [h2]
        exact ⟨hdn, fun q hq => hl q (by rw [h1]; exact List.mem_cons_of_mem _ hq)⟩
      · rw [h1, h2]; exact ⟨by omega, hl⟩
      · rw [h1, h2]
        refine ⟨by omega, fun q hq => ?_⟩
        rcases List.mem_append.mp hq with hq | hq
        · exact hl q hq
        · rw [List.mem_singleton] at hq
          rw [hq]
          simp only []
          omega)
    entradas s hinv h0 hmax ⟨hd, hq⟩
  exact ⟨evs, s1, hl, hj.2⟩

/-- The run of the program on `n` inputs `2` returns, with `5 + n` ids given out, as long
as the id counter does not overflow. -/
theorem run_insercoes (rs : Nat → Nat) (n : Nat) (hn : (5 : Int) + (n : Int) < 2 ^ 31) :
    ∃ evs s, main rs (List.replicate n (Leitura.numero 2, 0)) = some (evs, s) ∧ Inv s ∧
      s.idProximaPeca = 5 + (n : Int) := by
  obtain ⟨es0, s0, h0, hinv0, hord0, hid0⟩ := inicio_ok rs
  obtain ⟨evs, s, hl, hinv, _, hid, _, _⟩ := laco_ok
    (List.replicate n (Leitura.numero 2, 0)) s0 hinv0 hord0
    (by rw [hid0, numInsercoes_replicate]; exact hn)
  rw [hid0, numInsercoes_replicate] at hid
  exact ⟨[Evento.exibicao es0] ++ evs, s, by simp only [main, h0, hl], hinv, hid⟩

/-- Option 1 of the menu as one pass of the loop, on a queue that is not empty: the front
piece leaves the content. -/
theorem iteracao_jogar (n : Int) (r : Nat) (s : Estado) (hn : escolhaLida n = 1)
    (hinv : Inv s) (hpos : 0 < s.contadorPecas) :
    ∃ p ev s1, iteracao (Leitura.numero n) r s = some (Passo.completo 1 ev s1) ∧ Inv s1 ∧
      seqLogica s = p :: seqLogica s1 ∧ s1.idProximaPeca = s.idProximaPeca ∧
      (seqLogica s1).length + 1 = (seqLogica s).length ∧
      s1.contadorPecas = s.contadorPecas - 1 ∧ ev = [Evento.jogada p] ++ ev.tail := by
  have hinv1 : Inv { exibirMenu s with saida := (exibirMenu s).saida ++
      ["\n--- Executando Acao ---\n"] } := hinv
  obtain ⟨p0, s1, hd, hinv2, hseq1, hid1⟩ := desenfileirar_ok
    { exibirMenu s with saida := (exibirMenu s).saida ++ ["\n--- Executando Acao ---\n"] }
    hinv1 hpos
  obtain ⟨es, s2, hev, _, hinv3, hseq2, hid2⟩ := exibirFilaEv_campos s1 hinv2
  have hs : seqLogica { exibirMenu s with saida := (exibirMenu s).saida ++
      ["\n--- Executando Acao ---\n"] } = seqLogica s := rfl
  rw [hs] at hseq1
  have hcnt : s2.contadorPecas = s.contadorPecas - 1 := by
    have h1 : ((seqLogica s2).length : Int) = s2.contadorPecas := by
      rw [seqLogica_length]; have := hinv3.2.2.2.2.1; omega
    have h2 : ((seqLogica s).length : Int) = s.contadorPecas := by
      rw [seqLogica_length]; omega
    rw [hseq1, hseq2.symm] at h2
    simp only [List.length_cons, Nat.cast_add, Nat.cast_one] at h2
    omega
  refine ⟨p0, [Evento.jogada p0, Evento.exibicao es], s2, ?_, hinv3, by rw [hseq2]; exact hseq1,
    by rw [hid2, hid1]; rfl, by rw [hseq2, hseq1]; rfl, hcnt, rfl⟩
  simp only [iteracao, hn, executarAcao, if_true, hd, hev]

/-- The example run: after the initialisation, the inputs 2, 1, 2 leave the queue holding
the ids 1, 2, 3, 4 and 6. -/
theorem exemplo_lacuna (rs : Nat → Nat) (r1 r2 r3 : Nat) :
    ∃ evs s, main rs [(Leitura.numero 2, r1), (Leitura.numero 1, r2), (Leitura.numero 2, r3)] =
        some (evs, s) ∧
      (seqLogica s).map Peca.id = [1, 2, 3, 4, 6] := by
  obtain ⟨es0, s0, h0, hinv0, hseq0, hid0, hc0⟩ := inicio_seq rs
  obtain ⟨ev1, s1, hit1, hinv1, hid1, hcheia1, _⟩ :=
    iteracao_inserir 2 r1 s0 escolhaLida_dois hinv0
  obtain ⟨_, _, _, hc1, hseq1⟩ := hcheia1 (by rw [hc0]; rfl)
  obtain ⟨p, ev2, s2, hit2, hinv2, hseq2, hid2, hlen2, _, _⟩ :=
    iteracao_jogar 1 r2 s1 escolhaLida_um hinv1 (by rw [hc1, hc0]; decide)
  have hc2 : s2.contadorPecas ≠ (TAMANHO_FILA : Int) := by
    intro h
    have h5 : (seqLogica s2).length = 5 := by rw [seqLogica_length, h]; rfl
    have h6 : (seqLogica s1).length = 5 := by rw [hseq1, hseq0]; rfl
    omega
  obtain ⟨ev3, s3, hit3, _, _, _, hlivre3⟩ := iteracao_inserir 2 r3 s2 escolhaLida_dois hinv2
  obtain ⟨hseq3, _⟩ := hlivre3 hc2
  have hw : wrapInt (5 + 1) = 6 := by decide
  have hid2b : s2.idProximaPeca = 6 := by rw [hid2, hid1, hid0, hw]
  have htail : seqLogica s2 = (List.range 4).map
      (fun (j : Nat) => ({ nome := nomeGerado (rs (j + 1)), id := (j : Int) + 1 } : Peca)) := by
    have h := hseq2
    rw [hseq1, hseq0] at h
    have h2 := congrArg List.tail h
    simp only [List.tail_cons] at h2
    rw [← h2]
    rfl
  refine ⟨[Evento.exibicao es0] ++ (ev1 ++ (ev2 ++ (ev3 ++ []))), s3, ?_, ?_⟩
  · simp only [main, h0, laco, hit1, hit2, hit3]
    simp
  · rw [hseq3, htail, hid2b]
    rfl

/-! ## The claims -/

/-- C1 (capacity invariant): every finite sequence of calls of `enfileirar` (with any
pieces), `desenfileirar`, `gerarPeca` and `exibirFila` from the initial state runs to a
state, and in that state `0 <= contadorPecas <= TAMANHO_FILA = 5`. As every prefix of a
sequence of calls is a sequence of calls, the bound holds after every call, rejected
calls included. -/
theorem capacidade_invariante (cs : List Chamada) :
    ∃ s, executar cs estadoInicial = some s ∧
      0 ≤ s.contadorPecas ∧ s.contadorPecas ≤ (TAMANHO_FILA : Int) ∧ (TAMANHO_FILA : Int) = 5 := by
  obtain ⟨s, hs, hinv⟩ := executar_inv cs estadoInicial inv_estadoInicial
  exact ⟨s, hs, hinv.2.2.2.2.1, hinv.2.2.2.2.2.1, rfl⟩

/-- C2 (FIFO order): from a reachable state holding `c = contadorPecas` pieces, for every
list `ps` of at most `TAMANHO_FILA - c` pieces, enqueuing `ps` in order and then calling
`desenfileirar` `c + length ps` times returns the `c` stored pieces front to back followed
by exactly `ps`, in order. -/
theorem fifo_ordem (s : Estado) (ps : List Peca) (hs : Alcancavel s)
    (hk : (ps.length : Int) ≤ (TAMANHO_FILA : Int) - s.contadorPecas) :
    ∃ s1 s2, enfileirarTodas ps s = some s1 ∧
      desenfileirarN (s.contadorPecas.toNat + ps.length) s1 = some (seqLogica s ++ ps, s2) ∧
      (seqLogica s).length = s.contadorPecas.toNat := by
  have hinv := inv_of_alcancavel s hs
  have h0 : 0 ≤ s.contadorPecas := hinv.2.2.2.2.1
  obtain ⟨s1, h1, hinv1, hseq1, hc1⟩ := enfileirarTodas_seq ps s hinv (by omega)
  obtain ⟨s2, h2, _⟩ := desenfileirarN_seq (s.contadorPecas.toNat + ps.length) s1 hinv1
    (by rw [hc1]; simp only [Nat.cast_add]; omega)
  exact ⟨s1, s2, h1, by rw [h2, hseq1], seqLogica_length s⟩

/-- Witness of C2: three pieces enqueued after the two stored in `estadoGirado`, whose
front is at index 3, so that the tail index wraps past the end of the array. -/
theorem fifo_ordem_witness :
    ∃ s1 s2, enfileirarTodas [⟨'Z', 5⟩, ⟨'S', 6⟩, ⟨'I', 7⟩] estadoGirado = some s1 ∧
      desenfileirarN (estadoGirado.contadorPecas.toNat + 3) s1 =
        some (seqLogica estadoGirado ++ [⟨'Z', 5⟩, ⟨'S', 6⟩, ⟨'I', 7⟩], s2) ∧
      (seqLogica estadoGirado).length = estadoGirado.contadorPecas.toNat :=
  fifo_ordem estadoGirado [⟨'Z', 5⟩, ⟨'S', 6⟩, ⟨'I', 7⟩] alcancavel_estadoGirado (by decide)

/-- C5 (successful enqueue): in every reachable state with `contadorPecas < TAMANHO_FILA`
and for every piece `p`, `enfileirar p` returns; the index the code computes,
`(traseira + 1) % TAMANHO_FILA`, equals `(frente + contadorPecas) % TAMANHO_FILA`; `p` is
stored at that index and every other slot of `filaPecas` is unchanged; `contadorPecas`
grows by exactly 1; `frente` is unchanged; and the logical front-to-back sequence is the
old one with `p` added as its last element. -/
theorem enfileirar_sucesso (s : Estado) (p : Peca) (hs : Alcancavel s)
    (h : s.contadorPecas < (TAMANHO_FILA : Int)) :
    ∃ s1, enfileirar p s = some s1 ∧
      Int.tmod (wrapInt (s.traseira + 1)) TAMANHO_FILA =
        Int.tmod (s.frente + s.contadorPecas) TAMANHO_FILA ∧
      s1.traseira = Int.tmod (s.frente + s.contadorPecas) TAMANHO_FILA ∧
      lerFila s1.filaPecas (Int.tmod (s.frente + s.contadorPecas) TAMANHO_FILA) = some p ∧
      (∀ j : Int, j ≠ Int.tmod (s.frente + s.contadorPecas) TAMANHO_FILA →
        lerFila s1.filaPecas j = lerFila s.filaPecas j) ∧
      s1.contadorPecas = s.contadorPecas + 1 ∧ s1.frente = s.frente ∧
      seqLogica s1 = seqLogica s ++ [p] := by
  have hinv := inv_of_alcancavel s hs
  have he := enfileirar_eq p s hinv h
  have hseq := seqLogica_enfileirar p s _ hinv h he
  obtain ⟨h1, h2, h3, h4, h5, h6, h7⟩ := hinv
  have hc : ((s.contadorPecas.toNat : Nat) : Int) = s.contadorPecas := by omega
  have hidx : indiceLogico s s.contadorPecas.toNat = slot (s.frente + s.contadorPecas) := by
    simp only [indiceLogico, slot, hc]
  have htm : Int.tmod (s.frente + s.contadorPecas) TAMANHO_FILA =
      (s.frente + s.contadorPecas) % (TAMANHO_FILA : Int) :=
    Int.tmod_eq_emod (by omega) (by decide)
  have hw : wrapInt (s.traseira + 1) = s.traseira + 1 := by
    simp only [TAMANHO_FILA, Nat.cast_ofNat] at h4
    exact wrapInt_eq _ (by omega) (by omega)
  have htr : Int.tmod (s.traseira + 1) TAMANHO_FILA = (s.traseira + 1) % (TAMANHO_FILA : Int) :=
    Int.tmod_eq_emod (by omega) (by decide)
  refine ⟨_, he, ?_, htm.symm, ?_, ?_, rfl, rfl, hseq⟩
  · rw [hw, htr, htm, h7]
  · simp only [hidx, lerFila_update, htm, if_true]
  · intro j hj
    rw [htm] at hj
    simp only [hidx, lerFila_update, if_neg hj]

/-- Witness of C5: enqueuing into the initial, empty queue. -/
theorem enfileirar_sucesso_witness :
    ∃ s1, enfileirar ⟨'S', 7⟩ estadoInicial = some s1 ∧
      Int.tmod (wrapInt (estadoInicial.traseira + 1)) TAMANHO_FILA =
        Int.tmod (estadoInicial.frente + estadoInicial.contadorPecas) TAMANHO_FILA ∧
      s1.traseira = Int.tmod (estadoInicial.frente + estadoInicial.contadorPecas) TAMANHO_FILA ∧
      lerFila s1.filaPecas
        (Int.tmod (estadoInicial.frente + estadoInicial.contadorPecas) TAMANHO_FILA) =
          some ⟨'S', 7⟩ ∧
      (∀ j : Int, j ≠ Int.tmod (estadoInicial.frente + estadoInicial.contadorPecas) TAMANHO_FILA →
        lerFila s1.filaPecas j = lerFila estadoInicial.filaPecas j) ∧
      s1.contadorPecas = estadoInicial.contadorPecas + 1 ∧ s1.frente = estadoInicial.frente ∧
      seqLogica s1 = seqLogica estadoInicial ++ [⟨'S', 7⟩] :=
  enfileirar_sucesso estadoInicial ⟨'S', 7⟩ alcancavel_estadoInicial (by decide)

/-- C6 (successful dequeue): in every reachable state with `contadorPecas > 0`,
`desenfileirar` returns exactly the piece stored at `filaPecas[frente]`, sets `frente` to
`(frente + 1) % TAMANHO_FILA`, decreases `contadorPecas` by exactly 1, and leaves
`traseira` and all slots of `filaPecas` unchanged; the remaining logical sequence is the
old one without its first element, which is the piece returned. -/
theorem desenfileirar_sucesso (s : Estado) (hs : Alcancavel s) (h : 0 < s.contadorPecas) :
    ∃ p s1, desenfileirar s = some (p, s1) ∧ lerFila s.filaPecas s.frente = some p ∧
      s1.frente = Int.tmod (s.frente + 1) TAMANHO_FILA ∧
      s1.contadorPecas = s.contadorPecas - 1 ∧ s1.traseira = s.traseira ∧
      (∀ i, s1.filaPecas i = s.filaPecas i) ∧ seqLogica s = p :: seqLogica s1 := by
  have hinv := inv_of_alcancavel s hs
  have hd := desenfileirar_eq s hinv h
  have hseq := seqLogica_desenfileirar s _ _ hinv h hd
  obtain ⟨h1, h2, h3, h4, h5, h6, h7⟩ := hinv
  have hl : lerFila s.filaPecas s.frente = some (s.filaPecas (indiceLogico s 0)) := by
    have hf : s.frente % (TAMANHO_FILA : Int) = s.frente := Int.emod_eq_of_lt h1 h2
    simp only [lerFila, indiceLogico, Nat.cast_zero, add_zero, hf]
    rw [dif_pos ⟨h1, h2⟩]
  have htm : Int.tmod (s.frente + 1) TAMANHO_FILA = (s.frente + 1) % (TAMANHO_FILA : Int) :=
    Int.tmod_eq_emod (by omega) (by decide)
  exact ⟨_, _, hd, hl, htm.symm, rfl, rfl, fun _ => rfl, hseq⟩

/-- Witness of C6: dequeuing from `estadoUm`, which holds one piece. -/
theorem desenfileirar_sucesso_witness :
    0 < estadoUm.contadorPecas ∧
    ∃ p s1, desenfileirar estadoUm = some (p, s1) ∧
      lerFila estadoUm.filaPecas estadoUm.frente = some p ∧
      s1.frente = Int.tmod (estadoUm.frente + 1) TAMANHO_FILA ∧
      s1.contadorPecas = estadoUm.contadorPecas - 1 ∧ s1.traseira = estadoUm.traseira ∧
      (∀ i, s1.filaPecas i = estadoUm.filaPecas i) ∧ seqLogica estadoUm = p :: seqLogica s1 :=
  ⟨by decide, desenfileirar_sucesso estadoUm alcancavel_estadoUm (by decide)⟩

/-- C8 (round trip): from the initial state of the program, for every sequence `rs` of
random values, `inicializarFila` returns and `TAMANHO_FILA = 5` calls of `desenfileirar`
then return five pieces whose ids are exactly `0, 1, 2, 3, 4` in that order (distinct, the
first five ids generated, in generation order), the `j`-th with the kind `gerarPeca` chose
from the `j`-th random value, and leave the queue empty. -/
theorem ida_e_volta (rs : Nat → Nat) :
    ∃ s ps s1, inicializarFila rs estadoInicial = some s ∧
      desenfileirarN TAMANHO_FILA s = some (ps, s1) ∧
      ps.map Peca.id = [0, 1, 2, 3, 4] ∧ (ps.map Peca.id).Nodup ∧
      ps.map Peca.nome = [nomeGerado (rs 0), nomeGerado (rs 1), nomeGerado (rs 2),
        nomeGerado (rs 3), nomeGerado (rs 4)] ∧
      (∀ r s2, (gerarPeca r s2).1.nome = nomeGerado r) ∧
      s1.contadorPecas = 0 ∧ seqLogica s1 = [] := by
  obtain ⟨s, hs, hinv, hseq, hc, _, _⟩ := inicializarFila_seq rs
  obtain ⟨s1, h1, _, hc1, _⟩ := desenfileirarN_seq TAMANHO_FILA s hinv (by rw [hc]; rfl)
  have hids : (seqLogica s).map Peca.id = [0, 1, 2, 3, 4] := by rw [hseq]; rfl
  refine ⟨s, seqLogica s, s1, hs, h1, hids, ?_, ?_, fun _ _ => rfl, hc1, ?_⟩
  · rw [hids]; decide
  · rw [hseq]; rfl
  · simp [seqLogica, hc1]

/-- C9 (scenario, `N = 5`, at the level of the queue operations): after `inicializarFila`
from the initial state the queue holds ids `[0,1,2,3,4]` front to back, id 0 at the front,
`contadorPecas = 5`; `enfileirar` of a piece with id 5 (of any kind `c`) is rejected and
the queue is unchanged; `desenfileirar` then returns the piece with id 0 and the queue
holds `[1,2,3,4]`, `contadorPecas = 4`, id 1 at the front; `enfileirar` of the piece with
id 5 then succeeds and the queue holds `[1,2,3,4,5]`, `contadorPecas = 5`, with that
piece at `traseira`; `exibirFila` marks id 1 as front and id 5 as tail. -/
theorem cenario_n5 (rs : Nat → Nat) (c : Char) :
    ∃ s0 s1 p s2 s3 es,
      inicializarFila rs estadoInicial = some s0 ∧
      (seqLogica s0).map Peca.id = [0, 1, 2, 3, 4] ∧ s0.contadorPecas = 5 ∧
      (lerFila s0.filaPecas s0.frente).map Peca.id = some 0 ∧
      enfileirar ⟨c, 5⟩ s0 = some s1 ∧ s1.saida = s0.saida ++ [msgFilaCheia] ∧
      s1.frente = s0.frente ∧ s1.traseira = s0.traseira ∧
      s1.contadorPecas = s0.contadorPecas ∧ (∀ i, s1.filaPecas i = s0.filaPecas i) ∧
      seqLogica s1 = seqLogica s0 ∧
      desenfileirar s1 = some (p, s2) ∧ p.id = 0 ∧
      (seqLogica s2).map Peca.id = [1, 2, 3, 4] ∧ s2.contadorPecas = 4 ∧
      (lerFila s2.filaPecas s2.frente).map Peca.id = some 1 ∧
      enfileirar ⟨c, 5⟩ s2 = some s3 ∧ s3.saida = s2.saida ++ [msgInserida ⟨c, 5⟩] ∧
      (seqLogica s3).map Peca.id = [1, 2, 3, 4, 5] ∧ s3.contadorPecas = 5 ∧
      lerFila s3.filaPecas s3.traseira = some ⟨c, 5⟩ ∧
      exibirEntradas s3 = some es ∧
      es.map (fun e => (e.peca.id, e.marcaFrente, e.marcaTraseira)) =
        [(1, true, false), (2, false, false), (3, false, false), (4, false, false),
         (5, false, true)] :=
  ⟨_, _, _, _, _, _, rfl, rfl, rfl, rfl, rfl, rfl, rfl, rfl, rfl, fun _ => rfl, rfl, rfl, rfl,
    rfl, rfl, rfl, rfl, rfl, rfl, rfl, rfl, rfl, rfl⟩

/-- C10 (a removed piece never reappears): in every run of the program, that is
`inicializarFila` and the first display followed by any finite list of menu inputs, with
fewer than `2^31` pieces generated (the five of the initialisation and one for each input
`2` the loop handles), the run is defined on all these inputs (no access to the array is
out of bounds), and whenever an event of the run is the return of a piece `p` by
`desenfileirar`, no later display of the queue has an entry with the id of `p`. -/
theorem removida_nao_reaparece (rs : Nat → Nat) (entradas : List (Leitura × Nat))
    (hn : (TAMANHO_FILA : Int) + (numInsercoes entradas : Int) < 2 ^ 31) :
    ∃ evs s, main rs entradas = some (evs, s) ∧
      ∀ (i j : Nat) (p : Peca) (es : List Entrada), i < j →
        evs[i]? = some (Evento.jogada p) → evs[j]? = some (Evento.exibicao es) →
        ∀ e ∈ es, e.peca.id ≠ p.id := by
  obtain ⟨es0, s0, h0, hinv0, hord0, hid0⟩ := inicio_ok rs
  obtain ⟨evs, s1, hl, _, _, _, hpw, _⟩ := laco_ok entradas s0 hinv0 hord0
    (by rw [hid0]; simpa using hn)
  refine ⟨[Evento.exibicao es0] ++ evs, s1, by simp only [main, h0, hl], ?_⟩
  have hall : ([Evento.exibicao es0] ++ evs).Pairwise NaoReaparece := by
    rw [List.pairwise_append]
    refine ⟨List.pairwise_singleton _ _, hpw, ?_⟩
    intro x hx y _ p es hxp _
    rw [List.mem_singleton] at hx
    rw [hx] at hxp
    cases hxp
  intro i j p es hij hi hj
  obtain ⟨hi1, hi2⟩ := List.getElem?_eq_some.mp hi
  obtain ⟨hj1, hj2⟩ := List.getElem?_eq_some.mp hj
  exact List.pairwise_iff_getElem.mp hall i j hi1 hj1 hij p es hi2 hj2

/-- Witness of C10: a run that plays two pieces, inserts two, and plays again. -/
theorem removida_nao_reaparece_witness :
    ∃ evs s, main (fun i => 2 * i)
        [(Leitura.numero 1, 0), (Leitura.numero 1, 0), (Leitura.numero 2, 4),
         (Leitura.numero 2, 6), (Leitura.naoNumerica, 0), (Leitura.numero 1, 0)] =
        some (evs, s) ∧
      ∀ (i j : Nat) (p : Peca) (es : List Entrada), i < j →
        evs[i]? = some (Evento.jogada p) → evs[j]? = some (Evento.exibicao es) →
        ∀ e ∈ es, e.peca.id ≠ p.id :=
  removida_nao_reaparece (fun i => 2 * i)
    [(Leitura.numero 1, 0), (Leitura.numero 1, 0), (Leitura.numero 2, 4),
     (Leitura.numero 2, 6), (Leitura.naoNumerica, 0), (Leitura.numero 1, 0)] (by decide)

/-- C11 (display sequence): in every reachable state `exibirFila` returns and leaves
`frente`, `traseira`, `contadorPecas`, `idProximaPeca` and `filaPecas` unchanged; after
the header it prints, for each entry of the list `es` its loop walks and in that order,
the text `[nome id]` of the entry's piece, then `(Frente)` and `(Traseira)` according to
the entry's markers, then a blank, and after the entries the summary; `es` has exactly
`contadorPecas` entries, the `k`-th being the piece stored at index
`(frente + k) % TAMANHO_FILA`, marked as front or tail if that index is `frente` or
`traseira`; these are the occupied slots in front-to-back order, and no index is listed
twice. -/
theorem exibicao_sequencia (s : Estado) (hs : Alcancavel s) :
    ∃ es s1, exibirFila s = some s1 ∧ exibirEntradas s = some es ∧
      s1.frente = s.frente ∧ s1.traseira = s.traseira ∧
      s1.contadorPecas = s.contadorPecas ∧ s1.idProximaPeca = s.idProximaPeca ∧
      (∀ i, s1.filaPecas i = s.filaPecas i) ∧
      s1.saida = s.saida ++ (["\n--- Estado Atual da Fila de Pecas ---\n"] ++
        (if s.contadorPecas = 0 then ["A fila esta vazia.\n"]
         else ["Fila de Pecas: "] ++
          (es.map (fun e =>
            ["[" ++ String.singleton e.peca.nome ++ " " ++ toString e.peca.id ++ "]"] ++
            (if e.marcaFrente then ["(Frente)"] else []) ++
            (if e.marcaTraseira then ["(Traseira)"] else []) ++ [" "])).flatten ++
          ["\nTotal de Pecas: " ++ toString s.contadorPecas ++ " / " ++
              toString ((TAMANHO_FILA : Nat) : Int) ++ "\n",
           "--------------------------------------\n"])) ∧
      (es.length : Int) = s.contadorPecas ∧
      (∀ (k : Nat) (hk : k < es.length),
        (es.get ⟨k, hk⟩).indice = Int.tmod (s.frente + (k : Int)) TAMANHO_FILA ∧
        lerFila s.filaPecas (Int.tmod (s.frente + (k : Int)) TAMANHO_FILA) =
          some (es.get ⟨k, hk⟩).peca ∧
        (es.get ⟨k, hk⟩).peca = s.filaPecas (indiceLogico s k) ∧
        (es.get ⟨k, hk⟩).marcaFrente = ((es.get ⟨k, hk⟩).indice == s.frente) ∧
        (es.get ⟨k, hk⟩).marcaTraseira = ((es.get ⟨k, hk⟩).indice == s.traseira)) ∧
      es.map Entrada.peca = seqLogica s ∧ (es.map Entrada.indice).Nodup := by
  have hinv := inv_of_alcancavel s hs
  have h0 : 0 ≤ s.frente := hinv.1
  have hc0 : 0 ≤ s.contadorPecas := hinv.2.2.2.2.1
  have hc5 : s.contadorPecas ≤ (TAMANHO_FILA : Int) := hinv.2.2.2.2.2.1
  refine ⟨_, _, exibirFila_texto s hinv, exibirEntradas_eq s hinv, rfl, rfl, rfl, rfl,
    fun _ => rfl, rfl, ?_, ?_, ?_, ?_⟩
  · simp only [List.length_map, List.length_range]
    omega
  · intro k hk
    have hidx : ((List.range s.contadorPecas.toNat).map
        (fun (k : Nat) => entradaDe s (s.frente + (k : Int)))).get ⟨k, hk⟩ =
        entradaDe s (s.frente + (k : Int)) := by
      simp only [List.get_eq_getElem, List.getElem_map, List.getElem_range]
    have htm : Int.tmod (s.frente + (k : Int)) TAMANHO_FILA =
        (s.frente + (k : Int)) % (TAMANHO_FILA : Int) :=
      Int.tmod_eq_emod (by omega) (by decide)
    rw [hidx]
    refine ⟨by rw [htm]; rfl, ?_, rfl, rfl, rfl⟩
    rw [lerFila_slot _ _ (by omega)]
    rfl
  · simp only [List.map_map, seqLogica]
    apply List.map_congr_left
    intro k _
    rfl
  · have hn : s.contadorPecas.toNat ≤ TAMANHO_FILA := by
      simp only [TAMANHO_FILA, Nat.cast_ofNat] at hc5 ⊢
      omega
    have := indices_nodup s.frente s.contadorPecas.toNat hn
    simpa only [List.map_map] using this

/-- Witness of C11: the display of `estadoGirado`, whose two pieces sit at the indices 3
and 4, with the text it prints. -/
theorem exibicao_sequencia_witness :
    ∃ es s1, exibirFila estadoGirado = some s1 ∧ exibirEntradas estadoGirado = some es ∧
      (es.length : Int) = estadoGirado.contadorPecas ∧
      es.map Entrada.peca = [⟨'L', 3⟩, ⟨'J', 4⟩] ∧ es.map Entrada.indice = [3, 4] ∧
      s1.saida = estadoGirado.saida ++ ["\n--- Estado Atual da Fila de Pecas ---\n",
        "Fila de Pecas: ", "[L 3]", "(Frente)", " ", "[J 4]", "(Traseira)", " ",
        "\nTotal de Pecas: 2 / 5\n", "--------------------------------------\n"] := by
  obtain ⟨es, s1, h1, h2, _, _, _, _, _, h8, h3, _, _, _⟩ :=
    exibicao_sequencia estadoGirado alcancavel_estadoGirado
  have he : exibirEntradas estadoGirado = some
      [⟨3, ⟨'L', 3⟩, true, false⟩, ⟨4, ⟨'J', 4⟩, false, true⟩] := rfl
  rw [he] at h2
  cases h2
  refine ⟨_, s1, h1, he, h3, rfl, rfl, ?_⟩
  rw [h8]
  decide

/-- C12 (display markers): every sequence of calls from the initial state runs to a state
`s`, with `u` the piece most recently enqueued with success; if `contadorPecas > 0` in
`s`, then `exibirFila` returns and the text it prints is the header, then for each
`k < contadorPecas` in order the text `[nome id]` of the piece stored at index
`(frente + k) % TAMANHO_FILA`, followed by `(Frente)` if and only if `k = 0`, by
`(Traseira)` if and only if `k = contadorPecas - 1`, and by a blank, then the summary.
So the front marker is on the first listed entry and on no other, the tail marker is on
the last listed entry and on no other (one entry carries both when `contadorPecas = 1`),
and the piece of the last entry is `u`. The same holds of the markers recorded in the
entries the loop walks. The sequences of calls include those after which the indices
have wrapped. -/
theorem exibicao_marcadores (cs : List Chamada) :
    ∃ s u, executarComUltima cs estadoInicial none = some (s, u) ∧
      executar cs estadoInicial = some s ∧
      (0 < s.contadorPecas →
        ∃ es p s1, exibirFila s = some s1 ∧
          s1.saida = s.saida ++
            (["\n--- Estado Atual da Fila de Pecas ---\n", "Fila de Pecas: "] ++
              ((List.range s.contadorPecas.toNat).map (fun (k : Nat) =>
                ["[" ++ String.singleton (s.filaPecas (indiceLogico s k)).nome ++ " " ++
                  toString (s.filaPecas (indiceLogico s k)).id ++ "]"] ++
                (if k = 0 then ["(Frente)"] else []) ++
                (if k + 1 = s.contadorPecas.toNat then ["(Traseira)"] else []) ++
                [" "])).flatten ++
              ["\nTotal de Pecas: " ++ toString s.contadorPecas ++ " / " ++
                  toString ((TAMANHO_FILA : Nat) : Int) ++ "\n",
               "--------------------------------------\n"]) ∧
          u = some p ∧
          s.filaPecas (indiceLogico s (s.contadorPecas.toNat - 1)) = p ∧
          (seqLogica s).getLast? = some p ∧
          exibirEntradas s = some es ∧ (es.length : Int) = s.contadorPecas ∧
          (∀ (k : Nat) (hk : k < es.length),
            ((es.get ⟨k, hk⟩).marcaFrente = true ↔ k = 0) ∧
            ((es.get ⟨k, hk⟩).marcaTraseira = true ↔ k + 1 = es.length)) ∧
          es.getLast?.map Entrada.peca = some p) := by
  obtain ⟨s, u, h1, hinv, h2⟩ := executarComUltima_inv cs estadoInicial none invU_inicial
  refine ⟨s, u, h1, h2, ?_⟩
  intro hpos
  obtain ⟨es, p, he, hlen, hm, hu, hlast⟩ := marcadores_invU s u hinv hpos
  obtain ⟨es1, hes1, hpecas⟩ := exibirEntradas_pecas s hinv.1
  rw [he] at hes1
  cases hes1
  have hseq : (seqLogica s).getLast? = some p := by
    rw [← hpecas, List.getLast?_map]
    exact hlast
  refine ⟨es, p, _, texto_marcadores s u hinv hpos, rfl, hu, ?_, hseq, he, hlen, hm, hlast⟩
  obtain ⟨n, hn⟩ : ∃ n, s.contadorPecas.toNat = n + 1 :=
    ⟨s.contadorPecas.toNat - 1, by omega⟩
  have hseq1 := hseq
  simp only [seqLogica, List.getLast?_map, List.getLast?_range, hn, Nat.add_one_ne_zero,
    if_false, Option.map_some', Nat.add_sub_cancel, Option.some.injEq] at hseq1
  rw [hn, Nat.add_sub_cancel]
  exact hseq1

/-- Witness of C12: five pieces enqueued, three dequeued and two more enqueued, so that
the tail index has wrapped to 1 while the front is at 3; the text printed marks the
first piece as front and the last, the piece enqueued last, as tail. -/
theorem exibicao_marcadores_witness :
    ∃ s u, executarComUltima [Chamada.enfileirar ⟨'I', 0⟩, Chamada.enfileirar ⟨'O', 1⟩,
        Chamada.enfileirar ⟨'T', 2⟩, Chamada.enfileirar ⟨'L', 3⟩, Chamada.enfileirar ⟨'J', 4⟩,
        Chamada.desenfileirar, Chamada.desenfileirar, Chamada.desenfileirar,
        Chamada.enfileirar ⟨'Z', 5⟩, Chamada.enfileirar ⟨'S', 6⟩] estadoInicial none =
        some (s, u) ∧
      s.frente = 3 ∧ s.traseira = 1 ∧ s.contadorPecas = 4 ∧ u = some ⟨'S', 6⟩ ∧
      (exibirEntradas s).map
          (fun es => es.map (fun e => (e.peca.id, e.marcaFrente, e.marcaTraseira))) =
        some [(3, true, false), (4, false, false), (5, false, false), (6, false, true)] ∧
      ∃ s1, exibirFila s = some s1 ∧
        s1.saida = s.saida ++ ["\n--- Estado Atual da Fila de Pecas ---\n",
          "Fila de Pecas: ", "[L 3]", "(Frente)", " ", "[J 4]", " ", "[Z 5]", " ",
          "[S 6]", "(Traseira)", " ",
          "\nTotal de Pecas: 4 / 5\n", "--------------------------------------\n"] := by
  obtain ⟨s, u, h1, _, h3⟩ := exibicao_marcadores [Chamada.enfileirar ⟨'I', 0⟩,
    Chamada.enfileirar ⟨'O', 1⟩, Chamada.enfileirar ⟨'T', 2⟩, Chamada.enfileirar ⟨'L', 3⟩,
    Chamada.enfileirar ⟨'J', 4⟩, Chamada.desenfileirar, Chamada.desenfileirar,
    Chamada.desenfileirar, Chamada.enfileirar ⟨'Z', 5⟩, Chamada.enfileirar ⟨'S', 6⟩]
  have hrun : executarComUltima [Chamada.enfileirar ⟨'I', 0⟩,
      Chamada.enfileirar ⟨'O', 1⟩, Chamada.enfileirar ⟨'T', 2⟩, Chamada.enfileirar ⟨'L', 3⟩,
      Chamada.enfileirar ⟨'J', 4⟩, Chamada.desenfileirar, Chamada.desenfileirar,
      Chamada.desenfileirar, Chamada.enfileirar ⟨'Z', 5⟩, Chamada.enfileirar ⟨'S', 6⟩]
      estadoInicial none = some (estadoEnrolado, some ⟨'S', 6⟩) := rfl
  rw [hrun] at h1
  cases h1
  obtain ⟨es, p, s1, hx, htxt, _⟩ := h3 (by decide)
  refine ⟨_, _, hrun, rfl, rfl, rfl, rfl, rfl, s1, hx, ?_⟩
  rw [htxt]
  decide

/-- C17 (index safety): every sequence of calls from the initial state runs to a state
`s`, with `u` the piece most recently enqueued with success (`none` if no enqueue has
succeeded), in which `0 <= frente < TAMANHO_FILA` and `-1 <= traseira < TAMANHO_FILA`;
`traseira = -1` only if no enqueue has ever succeeded; the operands `traseira + 1` and
`frente + 1` of `%` are not negative; the index `enfileirar` writes and the index
`desenfileirar` reads are in `[0, TAMANHO_FILA)`, as is every index `exibirFila` reads,
whose successor is not negative either; and `enfileirar`, `desenfileirar` and `exibirFila`
all return in `s`, that is, none of them reaches an out-of-bounds access. -/
theorem indices_seguros (cs : List Chamada) :
    ∃ s u, executarComUltima cs estadoInicial none = some (s, u) ∧
      executar cs estadoInicial = some s ∧
      0 ≤ s.frente ∧ s.frente < (TAMANHO_FILA : Int) ∧
      -1 ≤ s.traseira ∧ s.traseira < (TAMANHO_FILA : Int) ∧
      (s.traseira = -1 → u = none) ∧
      0 ≤ wrapInt (s.traseira + 1) ∧
      0 ≤ Int.tmod (wrapInt (s.traseira + 1)) TAMANHO_FILA ∧
      Int.tmod (wrapInt (s.traseira + 1)) TAMANHO_FILA < (TAMANHO_FILA : Int) ∧
      (∀ p, ∃ s1, enfileirar p s = some s1) ∧
      0 ≤ wrapInt (s.frente + 1) ∧
      (∃ q s1, desenfileirar s = some (q, s1)) ∧
      (∃ es s1, exibirFila s = some s1 ∧ exibirEntradas s = some es ∧
        ∀ e ∈ es, 0 ≤ e.indice ∧ e.indice < (TAMANHO_FILA : Int) ∧
          0 ≤ wrapInt (e.indice + 1)) := by
  obtain ⟨s, u, h1, ⟨hinv, _, hsome⟩, h2⟩ :=
    executarComUltima_inv cs estadoInicial none invU_inicial
  obtain ⟨i1, i2, i3, i4, i5, i6, i7⟩ := hinv
  have hinv : Inv s := ⟨i1, i2, i3, i4, i5, i6, i7⟩
  simp only [TAMANHO_FILA, Nat.cast_ofNat] at i2 i4 i6 i7
  have hwt : wrapInt (s.traseira + 1) = s.traseira + 1 := wrapInt_eq _ (by omega) (by omega)
  have hwf : wrapInt (s.frente + 1) = s.frente + 1 := wrapInt_eq _ (by omega) (by omega)
  have htm : Int.tmod (s.traseira + 1) 5 = (s.traseira + 1) % 5 :=
    Int.tmod_eq_emod (by omega) (by omega)
  refine ⟨s, u, h1, h2, i1, i2, i3, i4, ?_, ?_, ?_, ?_, ?_, ?_, ?_, ?_⟩
  · intro ht
    cases u with
    | none => rfl
    | some p => have := (hsome p rfl).1; omega
  · rw [hwt]; omega
  · simp only [TAMANHO_FILA, Nat.cast_ofNat, hwt, htm]; omega
  · simp only [TAMANHO_FILA, Nat.cast_ofNat, hwt, htm]; omega
  · intro p
    obtain ⟨s1, hs1, _⟩ := chamar_inv (Chamada.enfileirar p) s hinv
    exact ⟨s1, hs1⟩
  · rw [hwf]; omega
  · by_cases hc : s.contadorPecas = 0
    · exact ⟨_, _, desenfileirar_vazia s hc⟩
    · exact ⟨_, _, desenfileirar_eq s hinv (by omega)⟩
  · refine ⟨_, _, exibirFila_texto s hinv, exibirEntradas_eq s hinv, ?_⟩
    intro e he
    obtain ⟨k, _, rfl⟩ := List.mem_map.mp he
    have hb : 0 ≤ (s.frente + (k : Int)) % 5 ∧ (s.frente + (k : Int)) % 5 < 5 := by omega
    simp only [entradaDe, TAMANHO_FILA, Nat.cast_ofNat]
    refine ⟨hb.1, hb.2, ?_⟩
    rw [wrapInt_eq _ (by omega) (by omega)]
    omega

/-- C14 (generated kind is in the fixed set): for every value `r` returned by the random
source (a natural number) and every state, `gerarPeca` returns a piece whose `nome` is the
element number `r mod 7` of `['I','O','T','L','J','Z','S']`; so it is one of these seven
symbols, never the error marker `'X'`; and each of the seven symbols is produced for some
`r`. -/
theorem tipo_gerado (r : Nat) (s : Estado) :
    tipos = ['I', 'O', 'T', 'L', 'J', 'Z', 'S'] ∧
    tipos[r % 7]? = some (gerarPeca r s).1.nome ∧
    (gerarPeca r s).1.nome ∈ tipos ∧ (gerarPeca r s).1.nome ≠ 'X' ∧
    ∀ c ∈ tipos, ∃ r1, (gerarPeca r1 s).1.nome = c := by
  have hn : (gerarPeca r s).1.nome = tipos.get ⟨r % numTipos, Nat.mod_lt r (by decide)⟩ := rfl
  have hmem : (gerarPeca r s).1.nome ∈ tipos := by rw [hn]; exact List.get_mem _ _ _
  refine ⟨rfl, ?_, hmem, ?_, ?_⟩
  · rw [hn]
    exact List.getElem?_eq_getElem (Nat.mod_lt r (by decide))
  · intro hx
    rw [hx] at hmem
    exact absurd hmem (by decide)
  · intro c hc
    obtain ⟨i, hi⟩ := List.mem_iff_get.mp hc
    refine ⟨i.val, ?_⟩
    have hv : i.val % numTipos = i.val := Nat.mod_eq_of_lt i.isLt
    have hg : (gerarPeca i.val s).1.nome =
        tipos.get ⟨i.val % numTipos, Nat.mod_lt i.val (by decide)⟩ := rfl
    rw [hg, ← hi]
    congr 1
    exact Fin.ext hv

/-- C15 as stated fails on the empty queue: in the initial state, which is reachable and
empty, `exibirFila` takes its early return and prints only the header and the line
`A fila esta vazia.`; no string it prints contains a slash or a digit, so the text has no
occupancy summary. -/
theorem exibicao_vazia_sem_resumo :
    Alcancavel estadoInicial ∧ estadoInicial.contadorPecas = 0 ∧
    ∃ s1, exibirFila estadoInicial = some s1 ∧
      s1.saida = ["\n--- Estado Atual da Fila de Pecas ---\n", "A fila esta vazia.\n"] ∧
      ∀ t ∈ s1.saida, '/' ∉ t.data ∧ ∀ d ∈ t.data, d.isDigit = false :=
  ⟨⟨[], rfl⟩, rfl, _, rfl, rfl, by decide⟩

/-- C15, amended (display text format): in every reachable state `exibirFila` returns.
If the queue is not empty, the text it prints is the header, `Fila de Pecas: `, then for
each occupied piece in front-to-back order the piece rendered as `[<kind-symbol> <id>]`,
its `(Frente)` and `(Traseira)` markers and a space, then the occupancy summary line
`Total de Pecas: <count> / <capacity>` with `contadorPecas` and `TAMANHO_FILA = 5`, and a
closing rule. If the queue is empty, the text is the header and `A fila esta vazia.`,
without an occupancy summary. -/
theorem exibicao_texto (s : Estado) (hs : Alcancavel s) :
    ∃ es s1, exibirFila s = some s1 ∧ exibirEntradas s = some es ∧
      es.map Entrada.peca = seqLogica s ∧
      (s.contadorPecas ≠ 0 →
        s1.saida = s.saida ++ (["\n--- Estado Atual da Fila de Pecas ---\n",
          "Fila de Pecas: "] ++ (es.map fmtEntrada).flatten ++
          ["\nTotal de Pecas: " ++ toString s.contadorPecas ++ " / " ++ "5" ++ "\n",
           "--------------------------------------\n"])) ∧
      (s.contadorPecas = 0 →
        s1.saida = s.saida ++ ["\n--- Estado Atual da Fila de Pecas ---\n",
          "A fila esta vazia.\n"]) ∧
      (∀ e, fmtEntrada e = [fmtPeca e.peca] ++ (if e.marcaFrente then ["(Frente)"] else []) ++
        (if e.marcaTraseira then ["(Traseira)"] else []) ++ [" "]) ∧
      (∀ p, fmtPeca p = "[" ++ String.singleton p.nome ++ " " ++ toString p.id ++ "]") := by
  have hinv := inv_of_alcancavel s hs
  obtain ⟨es, hes, hp⟩ := exibirEntradas_pecas s hinv
  have hes2 := exibirEntradas_eq s hinv
  rw [hes] at hes2
  cases hes2
  refine ⟨_, _, exibirFila_texto s hinv, hes, hp, ?_, ?_, fun _ => rfl, fun _ => rfl⟩
  · intro hc
    simp only [if_neg hc]
    rfl
  · intro hc
    simp only [if_pos hc]
    rfl

/-- Witness of C15 amended: the text printed for `estadoGirado`, which holds the pieces
`L 3` and `J 4`. -/
theorem exibicao_texto_witness :
    ∃ s1, exibirFila estadoGirado = some s1 ∧
      s1.saida = estadoGirado.saida ++ ["\n--- Estado Atual da Fila de Pecas ---\n",
        "Fila de Pecas: ", "[L 3]", "(Frente)", " ", "[J 4]", "(Traseira)", " ",
        "\nTotal de Pecas: 2 / 5\n", "--------------------------------------\n"] := by
  obtain ⟨es, s1, h1, h2, _, h4, _, _, _⟩ := exibicao_texto estadoGirado alcancavel_estadoGirado
  have he : exibirEntradas estadoGirado = some
      [⟨3, ⟨'L', 3⟩, true, false⟩, ⟨4, ⟨'J', 4⟩, false, true⟩] := rfl
  rw [he] at h2
  cases h2
  refine ⟨s1, h1, ?_⟩
  rw [h4 (by decide)]
  decide

/-- C16 (refinement of an abstract bounded FIFO list): with `abs s = seqLogica s`, the
list of the pieces `filaPecas[(frente + k) % TAMANHO_FILA]` for `k` from 0 to
`contadorPecas - 1`, in every reachable state `s` and for every piece `p`: `enfileirar p`
returns a state whose abstraction is `abs s ++ [p]` if `abs s` has fewer than 5 pieces and
`abs s` otherwise; `desenfileirar` returns the head of `abs s` and a state whose
abstraction is its tail if `abs s` is not empty, and the error piece with the abstraction
unchanged otherwise. -/
theorem refinamento_fifo (s : Estado) (p : Peca) (hs : Alcancavel s) :
    (seqLogica s).length = s.contadorPecas.toNat ∧
    (∀ k : Nat, (k : Int) < s.contadorPecas →
      lerFila s.filaPecas (Int.tmod (s.frente + (k : Int)) TAMANHO_FILA) = (seqLogica s)[k]?) ∧
    (∃ s1, enfileirar p s = some s1 ∧ seqLogica s1 = absEnfileirar (seqLogica s) p) ∧
    (∃ q s1, desenfileirar s = some (q, s1) ∧
      (q, seqLogica s1) = absDesenfileirar (seqLogica s)) := by
  have hinv := inv_of_alcancavel s hs
  have h0 : 0 ≤ s.frente := hinv.1
  have hc0 : 0 ≤ s.contadorPecas := hinv.2.2.2.2.1
  have hc5 : s.contadorPecas ≤ (TAMANHO_FILA : Int) := hinv.2.2.2.2.2.1
  refine ⟨seqLogica_length s, ?_, ?_, ?_⟩
  · intro k hk
    have hk1 : k < s.contadorPecas.toNat := by omega
    rw [lerFila_slot _ _ (by omega)]
    simp only [seqLogica, List.getElem?_map, List.getElem?_range hk1, Option.map_some']
    rfl
  · by_cases hc : s.contadorPecas = TAMANHO_FILA
    · refine ⟨_, enfileirar_cheia p s hc, ?_⟩
      have hl : ¬ (seqLogica s).length < TAMANHO_FILA := by
        rw [seqLogica_length, hc]
        decide
      simp only [absEnfileirar, if_neg hl]
      rfl
    · have hlt : s.contadorPecas < TAMANHO_FILA := lt_of_le_of_ne hc5 hc
      have he := enfileirar_eq p s hinv hlt
      refine ⟨_, he, ?_⟩
      have hl : (seqLogica s).length < TAMANHO_FILA := by
        rw [seqLogica_length]
        simp only [TAMANHO_FILA, Nat.cast_ofNat] at hlt ⊢
        omega
      simp only [absEnfileirar, if_pos hl]
      exact seqLogica_enfileirar p s _ hinv hlt he
  · by_cases hc : s.contadorPecas = 0
    · refine ⟨_, _, desenfileirar_vazia s hc, ?_⟩
      have hnil : seqLogica s = [] := by simp [seqLogica, hc]
      have hsame : seqLogica { s with saida := s.saida ++ [msgFilaVazia] } = seqLogica s := rfl
      rw [hsame, hnil]
      rfl
    · have hpos : 0 < s.contadorPecas := lt_of_le_of_ne hc0 (Ne.symm hc)
      have hd := desenfileirar_eq s hinv hpos
      refine ⟨_, _, hd, ?_⟩
      rw [seqLogica_desenfileirar s _ _ hinv hpos hd]
      rfl

/-- Witness of C16: the state `estadoGirado`, whose abstraction is `[L 3, J 4]`. -/
theorem refinamento_fifo_witness :
    seqLogica estadoGirado = [⟨'L', 3⟩, ⟨'J', 4⟩] ∧
    (∃ s1, enfileirar ⟨'Z', 5⟩ estadoGirado = some s1 ∧
      seqLogica s1 = [⟨'L', 3⟩, ⟨'J', 4⟩, ⟨'Z', 5⟩]) ∧
    (∃ q s1, desenfileirar estadoGirado = some (q, s1) ∧
      (q, seqLogica s1) = (⟨'L', 3⟩, [⟨'J', 4⟩])) := by
  obtain ⟨_, _, ⟨s1, h1, h2⟩, ⟨q, s2, h3, h4⟩⟩ :=
    refinamento_fifo estadoGirado ⟨'Z', 5⟩ alcancavel_estadoGirado
  have hseq : seqLogica estadoGirado = [⟨'L', 3⟩, ⟨'J', 4⟩] := rfl
  rw [hseq] at h2 h4
  exact ⟨hseq, ⟨s1, h1, h2⟩, ⟨q, s2, h3, h4⟩⟩

/-- C19 (stored ids are ordered and fresh): every run of the program, that is
`inicializarFila` and the first display followed by any finite list of menu inputs, with
fewer than `2^31` pieces generated, is defined on all these inputs (no access to the array
is out of bounds), and in the state it reaches the ids of the occupied slots read front to
back are strictly increasing, hence pairwise distinct, and each lies in
`[0, idProximaPeca)`. As every prefix of a list of inputs is a list of
inputs, this holds in every state the run passes through between two inputs. -/
theorem ids_ordenados_e_novos (rs : Nat → Nat) (entradas : List (Leitura × Nat))
    (hn : (TAMANHO_FILA : Int) + (numInsercoes entradas : Int) < 2 ^ 31) :
    ∃ evs s, main rs entradas = some (evs, s) ∧
      ((seqLogica s).map Peca.id).Pairwise (fun a b => a < b) ∧
      ((seqLogica s).map Peca.id).Nodup ∧
      ∀ q ∈ seqLogica s, 0 ≤ q.id ∧ q.id < s.idProximaPeca := by
  obtain ⟨es0, s0, h0, hinv0, hord0, hid0⟩ := inicio_ok rs
  obtain ⟨evs, s1, hl, _, hord1, _, _, _⟩ := laco_ok entradas s0 hinv0 hord0
    (by rw [hid0]; simpa using hn)
  refine ⟨[Evento.exibicao es0] ++ evs, s1, by simp only [main, h0, hl], hord1.2.1, ?_,
    hord1.2.2⟩
  exact hord1.2.1.imp (fun h => ne_of_lt h)

/-- Witness of C19: a run that rejects an insertion, plays a piece and inserts another. -/
theorem ids_ordenados_e_novos_witness :
    ∃ evs s, main (fun i => i)
        [(Leitura.numero 2, 1), (Leitura.numero 1, 0), (Leitura.numero 2, 5)] = some (evs, s) ∧
      ((seqLogica s).map Peca.id).Pairwise (fun a b => a < b) ∧
      ((seqLogica s).map Peca.id).Nodup ∧
      ∀ q ∈ seqLogica s, 0 ≤ q.id ∧ q.id < s.idProximaPeca :=
  ids_ordenados_e_novos (fun i => i)
    [(Leitura.numero 2, 1), (Leitura.numero 1, 0), (Leitura.numero 2, 5)] (by decide)

/-- C20 (the empty-queue sentinel is unambiguous within a run): every run of the program
with fewer than `2^31` pieces generated is defined on all its inputs (no access to the
array is out of bounds), and in the state it reaches `desenfileirar` returns a piece with `id = -1` if and only if the queue is empty
(`contadorPecas = 0`), and likewise returns a piece with `nome = 'X'` if and only if the
queue is empty. -/
theorem sentinela_nao_ambigua (rs : Nat → Nat) (entradas : List (Leitura × Nat))
    (hn : (TAMANHO_FILA : Int) + (numInsercoes entradas : Int) < 2 ^ 31) :
    ∃ evs s p s1, main rs entradas = some (evs, s) ∧ desenfileirar s = some (p, s1) ∧
      (p.id = -1 ↔ s.contadorPecas = 0) ∧ (p.nome = 'X' ↔ s.contadorPecas = 0) := by
  obtain ⟨es0, s0, h0, hinv0, hseq0, hid0, _⟩ := inicio_seq rs
  have hj0 : ∀ q ∈ seqLogica s0, q.nome ∈ tipos ∧ 0 ≤ q.id := by
    intro q hq
    rw [hseq0] at hq
    obtain ⟨j, _, rfl⟩ := List.mem_map.mp hq
    exact ⟨nomeGerado_mem _, Int.ofNat_nonneg _⟩
  obtain ⟨evs, s, hl, hinv, hj, _⟩ := laco_preserva
    (fun l _ => ∀ q ∈ l, q.nome ∈ tipos ∧ 0 ≤ q.id)
    (by
      intro l n l1 n1 hn0 hj hp q hq
      rcases hp with ⟨h1, _⟩ | ⟨p, h1, _⟩ | ⟨h1, _, _⟩ | ⟨r, h1, _⟩
      · rw [h1] at hq; exact hj q hq
      · exact hj q (by rw [h1]; exact List.mem_cons_of_mem _ hq)
      · rw [h1] at hq; exact hj q hq
      · rw [h1] at hq
        rcases List.mem_append.mp hq with hq | hq
        · exact hj q hq
        · rw [List.mem_singleton] at hq
          rw [hq]
          exact ⟨nomeGerado_mem r, hn0⟩)
    entradas s0 hinv0 (by rw [hid0]; decide) (by rw [hid0]; simpa using hn) hj0
  have hrun : main rs entradas = some ([Evento.exibicao es0] ++ evs, s) := by
    simp only [main, h0, hl]
  by_cases hc : s.contadorPecas = 0
  · refine ⟨_, s, pecaErro, _, hrun, desenfileirar_vazia s hc, ?_, ?_⟩
    · exact ⟨fun _ => hc, fun _ => rfl⟩
    · exact ⟨fun _ => hc, fun _ => rfl⟩
  · have hpos : 0 < s.contadorPecas := lt_of_le_of_ne hinv.2.2.2.2.1 (Ne.symm hc)
    obtain ⟨p, s1, hd, _, hseq, _⟩ := desenfileirar_ok s hinv hpos
    have hp := hj p (by rw [hseq]; exact List.mem_cons_self _ _)
    refine ⟨_, s, p, s1, hrun, hd, ?_, ?_⟩
    · constructor
      · intro h; have := hp.2; omega
      · intro h; exact absurd h hc
    · constructor
      · intro h
        have hm := hp.1
        rw [h] at hm
        exact absurd hm (by decide)
      · intro h; exact absurd h hc

/-- Witness of C20: a run that empties the queue, so that the next removal returns the
sentinel. -/
theorem sentinela_nao_ambigua_witness :
    ∃ evs s p s1, main (fun i => i)
        [(Leitura.numero 1, 0), (Leitura.numero 1, 0), (Leitura.numero 1, 0),
         (Leitura.numero 1, 0), (Leitura.numero 1, 0)] = some (evs, s) ∧
      desenfileirar s = some (p, s1) ∧
      (p.id = -1 ↔ s.contadorPecas = 0) ∧ (p.nome = 'X' ↔ s.contadorPecas = 0) :=
  sentinela_nao_ambigua (fun i => i)
    [(Leitura.numero 1, 0), (Leitura.numero 1, 0), (Leitura.numero 1, 0),
     (Leitura.numero 1, 0), (Leitura.numero 1, 0)] (by decide)

/-- C18 as stated fails at the end of the range of `int`: the run of the program that
handles `2147483642 = 2^31 - 6` inputs `2` reaches a state with `idProximaPeca =
2147483647`, the largest `int`; handling one more input `2` there does not leave
`idProximaPeca` one higher: the increment wraps around to `-2147483648`. -/
theorem opcao2_no_limite :
    ∃ evs s, main (fun _ => 0) (List.replicate 2147483642 (Leitura.numero 2, 0)) =
        some (evs, s) ∧
      s.idProximaPeca = 2147483647 ∧
      ∃ ev s1, iteracao (Leitura.numero 2) 0 s = some (Passo.completo 2 ev s1) ∧
        s1.idProximaPeca = -2147483648 ∧ s1.idProximaPeca ≠ s.idProximaPeca + 1 := by
  obtain ⟨evs, s, h, hinv, hid⟩ := run_insercoes (fun _ => 0) 2147483642 (by norm_num)
  have hs : s.idProximaPeca = 2147483647 := by rw [hid]; norm_num
  obtain ⟨ev, s1, hit, _, hid1, _, _⟩ := iteracao_inserir 2 0 s escolhaLida_dois hinv
  have h1 : s1.idProximaPeca = -2147483648 := by
    rw [hid1, hs]
    unfold wrapInt
    norm_num
  refine ⟨evs, s, h, hs, ev, s1, hit, h1, ?_⟩
  rw [h1, hs]
  norm_num

/-- C18, amended (a rejected insertion still consumes an id): in every state satisfying
the representation invariant in which `idProximaPeca` is below the largest `int`,
handling the menu option 2 returns and leaves `idProximaPeca` exactly 1 higher, whether
or not the enqueue succeeds. When the queue is full it leaves `filaPecas`, `frente`,
`traseira` and `contadorPecas` unchanged; and if the stored ids are ordered and below
`idProximaPeca`, as they are in a run of the program, the discarded id is stored in the
queue neither then nor after any further inputs that keep the counter in range. When the
queue is not full the generated piece, carrying that id, is appended. The ids held can
thus have gaps: after the initialisation the inputs 2, 1, 2 leave the queue holding the
ids `[1,2,3,4,6]`. -/
theorem opcao2_consome_id (s : Estado) (r : Nat) (hinv : Inv s)
    (hlo : -2 ^ 31 ≤ s.idProximaPeca) (hhi : s.idProximaPeca < 2 ^ 31 - 1) :
    (∃ ev s1, iteracao (Leitura.numero 2) r s = some (Passo.completo 2 ev s1) ∧
      s1.idProximaPeca = s.idProximaPeca + 1 ∧
      (s.contadorPecas = TAMANHO_FILA →
        (∀ i, s1.filaPecas i = s.filaPecas i) ∧ s1.frente = s.frente ∧
        s1.traseira = s.traseira ∧ s1.contadorPecas = s.contadorPecas ∧
        (IdsOrdenados s → ∀ resto : List (Leitura × Nat),
          s1.idProximaPeca + (numInsercoes resto : Int) < 2 ^ 31 →
          ∃ evs s2, laco resto s1 = some (evs, s2) ∧
            ∀ q ∈ seqLogica s2, q.id ≠ s.idProximaPeca)) ∧
      (s.contadorPecas ≠ TAMANHO_FILA →
        seqLogica s1 = seqLogica s ++ [⟨nomeGerado r, s.idProximaPeca⟩])) ∧
    (∀ (rs : Nat → Nat) (r1 r2 r3 : Nat), ∃ evs s2,
      main rs [(Leitura.numero 2, r1), (Leitura.numero 1, r2), (Leitura.numero 2, r3)] =
        some (evs, s2) ∧
      (seqLogica s2).map Peca.id = [1, 2, 3, 4, 6]) := by
  refine ⟨?_, exemplo_lacuna⟩
  obtain ⟨ev, s1, hit, hinv1, hid1, hcheia, hlivre⟩ := iteracao_inserir 2 r s escolhaLida_dois hinv
  have hw : wrapInt (s.idProximaPeca + 1) = s.idProximaPeca + 1 :=
    wrapInt_eq _ (by omega) (by omega)
  rw [hw] at hid1
  refine ⟨ev, s1, hit, hid1, ?_, fun hc => (hlivre hc).1⟩
  intro hc
  obtain ⟨hf, hfr, htr, hcp, hseq⟩ := hcheia hc
  refine ⟨fun i => by rw [hf], hfr, htr, hcp, ?_⟩
  intro hord resto hmax
  obtain ⟨h0, _, hm⟩ := hord
  apply laco_ausente s.idProximaPeca resto s1 hinv1 (by omega) hmax (by omega)
  intro q hq
  rw [hseq] at hq
  have := (hm q hq).2
  omega

/-- Witness of C18 amended: option 2 on the full queue `estadoCheio`, whose counter is 8. -/
theorem opcao2_consome_id_witness :
    ∃ ev s1, iteracao (Leitura.numero 2) 3 estadoCheio = some (Passo.completo 2 ev s1) ∧
      s1.idProximaPeca = estadoCheio.idProximaPeca + 1 ∧
      (∀ i, s1.filaPecas i = estadoCheio.filaPecas i) ∧ s1.frente = estadoCheio.frente ∧
      s1.traseira = estadoCheio.traseira ∧ s1.contadorPecas = estadoCheio.contadorPecas := by
  obtain ⟨⟨ev, s1, h1, h2, h3, _⟩, _⟩ := opcao2_consome_id estadoCheio 3
    (by simp [Inv, estadoCheio]) (by decide) (by decide)
  obtain ⟨h4, h5, h6, h7, _⟩ := h3 rfl
  exact ⟨ev, s1, h1, h2, h4, h5, h6, h7⟩

end Tetris
